import Mathlib

/-!
# Verification of the segment-based communication-metrics engine

This file embeds the deterministic core of the meeting-analysis backend
(`python-backend/app/routes/process.py`): the talk-time aggregation step of
`process_job_task`, `calculate_per_speaker_response_latency`,
`calculate_per_speaker_interruptions`, the per-speaker tip-generation step,
and (modelled from the specification, see `detect_interruption_events`) the
aggregate interruption summary.

Python values are embedded as follows: floats become exact rationals (`ℚ`),
`dict`s become insertion-ordered association lists (`Dict`), optional dict
fields become `Option`, and the Python built-in `round` becomes round-half-even
on rationals (`pyRound`).
-/

namespace ChipMetrics

/-- A Python `dict` modelled as an insertion-ordered association list. -/
abbrev Dict (K V : Type) := List (K × V)

/-- Dictionary lookup (`d.get(k)` / `d[k]`): the first entry with the key. -/
def dget? {K V : Type} [DecidableEq K] : Dict K V → K → Option V
  | [], _ => none
  | (k, v) :: m, k0 => if k0 = k then some v else dget? m k0

/-- Dictionary assignment `d[k] = v`: replace the first entry with the key in
place, or append a new entry at the end (Python dicts keep insertion order). -/
def dset {K V : Type} [DecidableEq K] : Dict K V → K → V → Dict K V
  | [], k0, v0 => [(k0, v0)]
  | (k, v) :: m, k0, v0 => if k0 = k then (k, v0) :: m else (k, v) :: dset m k0 v0

/-- The keys of a dict, in insertion order. -/
def dkeys {K V : Type} (m : Dict K V) : List K := m.map Prod.fst

/-- Round to the nearest integer, ties to even: the rounding of the Python
builtin `round` (on exact decimal inputs). -/
def roundHalfEven (q : ℚ) : ℤ :=
  if q - ⌊q⌋ < 1/2 then ⌊q⌋
  else if 1/2 < q - ⌊q⌋ then ⌊q⌋ + 1
  else if ⌊q⌋ % 2 = 0 then ⌊q⌋ else ⌊q⌋ + 1

/-- Python `round(x, ndigits)` on exact rationals. -/
def pyRound (x : ℚ) (ndigits : ℕ) : ℚ :=
  (roundHalfEven (x * 10 ^ ndigits) : ℚ) / 10 ^ ndigits

/-- Word counter over a character list; the boolean says whether the previous
character was inside a word. -/
def countWords : List Char → Bool → ℕ
  | [], _ => 0
  | c :: cs, inWord =>
    if c.isWhitespace then countWords cs false
    else (if inWord then 0 else 1) + countWords cs true

/-- `len(text.split())` in Python: the number of maximal whitespace-free runs. -/
def pyWordCount (text : String) : ℕ := countWords text.data false

/-- One transcription segment — a Python dict whose fields may be absent
(`none`).  `stop` embeds the source `end` key (`end` is reserved in Lean).
The source reads fields as `seg.get("start", 0)`, `seg.get("end", 0)`,
`seg.get("speaker")` / `seg.get("speaker", "Unknown")`, `seg.get("text", "")`. -/
structure Segment where
  start : Option ℚ := none
  stop : Option ℚ := none
  speaker : Option String := none
  text : Option String := none
deriving DecidableEq

/-! ## Talk-time aggregation (step 2 of `process_job_task`, process.py 252-278) -/

/-- The mutable per-speaker record of the first aggregation pass. -/
structure RawStats where
  total_time : ℚ
  word_count : ℕ
  segments : ℕ
deriving DecidableEq

/-- The zero record installed when a speaker is first seen. -/
def zeroRawStats : RawStats := ⟨0, 0, 0⟩

/-- One iteration of the speaker-statistics loop: a missing speaker label
defaults to "Unknown" (`segment.get("speaker", "Unknown")`), then duration,
word count and segment count are accumulated onto the record of that speaker. -/
def statsStep (m : Dict String RawStats) (seg : Segment) : Dict String RawStats :=
  let speaker := seg.speaker.getD "Unknown"
  let cur := (dget? m speaker).getD zeroRawStats
  dset m speaker
    { total_time := cur.total_time + (seg.stop.getD 0 - seg.start.getD 0),
      word_count := cur.word_count + pyWordCount (seg.text.getD ""),
      segments := cur.segments + 1 }

/-- The first pass of step 2: `speaker_stats` before percentages. -/
def rawSpeakerStats (segments : List Segment) : Dict String RawStats :=
  segments.foldl statsStep []

/-- The reported statistics of a speaker after the percentage pass. -/
structure SpeakerStats where
  total_time : ℚ
  word_count : ℕ
  segments : ℕ
  percentage : ℚ
deriving DecidableEq

/-- The percentage pass of step 2: grand total over the dict values, then
`percentage = round(total_time / total * 100, 1)` when the total is positive
(else 0), and `total_time` rounded to 2 decimals for reporting (the percentage
is computed from the unrounded value, as in the source). -/
def finalizeStats (m : Dict String RawStats) : Dict String SpeakerStats :=
  let total_time := (m.map (fun p => p.2.total_time)).sum
  m.map (fun p =>
    (p.1,
      { total_time := pyRound p.2.total_time 2,
        word_count := p.2.word_count,
        segments := p.2.segments,
        percentage :=
          if total_time > 0 then pyRound (p.2.total_time / total_time * 100) 1
          else 0 }))

/-- Speaker statistics exactly as assembled by step 2 of `process_job_task`. -/
def calculate_speaker_stats (segments : List Segment) : Dict String SpeakerStats :=
  finalizeStats (rawSpeakerStats segments)

/-- The speaker label of each segment after the "Unknown" defaulting of the
talk-time aggregation step. -/
def unknownLabels (segments : List Segment) : List String :=
  segments.map (fun s => s.speaker.getD "Unknown")

/-- The segments attributed to label `sp` by the talk-time aggregation step. -/
def segsOf (segments : List Segment) (sp : String) : List Segment :=
  segments.filter (fun s => s.speaker.getD "Unknown" = sp)

/-- Specification-side total speaking time of label `sp`. -/
def timeSum (segments : List Segment) (sp : String) : ℚ :=
  ((segsOf segments sp).map (fun s => s.stop.getD 0 - s.start.getD 0)).sum

/-- Specification-side word count of label `sp`. -/
def wordSum (segments : List Segment) (sp : String) : ℕ :=
  ((segsOf segments sp).map (fun s => pyWordCount (s.text.getD ""))).sum

/-- Specification-side grand total of talk time over all segments. -/
def grandTotal (segments : List Segment) : ℚ :=
  (segments.map (fun s => s.stop.getD 0 - s.start.getD 0)).sum

/-- Sum of the reported `percentage` values over all speakers. -/
def sumPercentages (m : Dict String SpeakerStats) : ℚ :=
  (m.map (fun p => p.2.percentage)).sum

/-! ## `calculate_per_speaker_response_latency` (process.py 66-122) -/

/-- The gap-recording condition of the latency loop:
`prev_speaker and prev_end is not None and prev_speaker != current_speaker`.
`prev_speaker` is truthy exactly when it is a present, non-empty string; in the
loop `prev_end` is non-None from the second iteration on, which is the only
time the condition can fire, so carrying the whole previous segment is
equivalent to carrying the `(prev_speaker, prev_end)` pair. -/
def latCond (prev cur : Segment) : Bool :=
  match prev.speaker with
  | some ps => decide (ps ≠ "") && decide (some ps ≠ cur.speaker)
  | none => false

/-- The latency loop from the second segment on: `prev` holds the previous
segment (so `prev_speaker = prev.speaker`, `prev_end = prev.stop.getD 0`);
a non-negative gap is appended to the bucket of the responding (current) speaker. -/
def gapsAux (gaps : Dict (Option String) (List ℚ)) (prev : Segment) :
    List Segment → Dict (Option String) (List ℚ)
  | [] => gaps
  | cur :: rest =>
    let gap := cur.start.getD 0 - prev.stop.getD 0
    let gaps' :=
      if latCond prev cur && decide (0 ≤ gap) then
        dset gaps cur.speaker ((dget? gaps cur.speaker).getD [] ++ [gap])
      else gaps
    gapsAux gaps' cur rest

/-- The `speaker_gaps` dict after the whole loop (the first iteration never
records a gap because `prev_speaker` starts as None). -/
def speakerGaps : List Segment → Dict (Option String) (List ℚ)
  | [] => []
  | s :: rest => gapsAux [] s rest

/-- The per-speaker latency record of the result dict. -/
structure LatencyMetrics where
  average_seconds : ℚ
  response_count : ℕ
  quick_responses_count : ℕ
  quick_responses_percentage : ℚ
deriving DecidableEq

/-- The per-bucket metrics of the result loop: average gap rounded to 2
decimals, response count, quick responses (`gap < 1.0` strictly) and their
percentage rounded to 1 decimal. -/
def mkLatencyMetrics (gaps : List ℚ) : LatencyMetrics :=
  let average_gap := gaps.sum / gaps.length
  let quick_responses := gaps.filter (fun g => g < 1)
  { average_seconds := pyRound average_gap 2,
    response_count := gaps.length,
    quick_responses_count := quick_responses.length,
    quick_responses_percentage :=
      pyRound ((quick_responses.length : ℚ) / gaps.length * 100) 1 }

/-- `calculate_per_speaker_response_latency`: empty for fewer than 2 segments,
else per-speaker metrics over the non-empty gap buckets (the `if not gaps:
continue` guard of the source is the filter). -/
def calculate_per_speaker_response_latency (segments : List Segment) :
    Dict (Option String) LatencyMetrics :=
  if segments.length < 2 then []
  else
    ((speakerGaps segments).filter (fun p => !p.2.isEmpty)).map
      (fun p => (p.1, mkLatencyMetrics p.2))

/-- Specification-side recorded gaps of responding speaker `sp`: over adjacent
segment pairs, the gap `cur.start - prev.end` whenever the previous speaker is
present, non-empty and differs from the current one and the gap is
non-negative. -/
def specGaps (segments : List Segment) (sp : Option String) : List ℚ :=
  ((segments.zip segments.tail).filter
      (fun p => latCond p.1 p.2 && decide (0 ≤ p.2.start.getD 0 - p.1.stop.getD 0)
        && decide (p.2.speaker = sp))).map
    (fun p => p.2.start.getD 0 - p.1.stop.getD 0)

/-- The gap bucket of speaker `sp` (empty when the speaker has none). -/
def bucketD (segments : List Segment) (sp : Option String) : List ℚ :=
  (dget? (speakerGaps segments) sp).getD []

/-! ## `calculate_per_speaker_interruptions` (process.py 125-198) -/

/-- The mutable per-speaker counters of the interruption scan. -/
structure InterCounts where
  times_interrupted : ℕ
  times_interrupting : ℕ
deriving DecidableEq

/-- The zero counters installed in the initialization pass. -/
def zeroInterCounts : InterCounts := ⟨0, 0⟩

/-- One iteration of the initialization pass: first-seen speakers get zero
counters and zero talk time, then the duration of the segment is added to the
talk time of the speaker. -/
def initStep (st : Dict (Option String) InterCounts × Dict (Option String) ℚ)
    (seg : Segment) : Dict (Option String) InterCounts × Dict (Option String) ℚ :=
  let speaker := seg.speaker
  let ints := if speaker ∈ dkeys st.1 then st.1 else st.1 ++ [(speaker, zeroInterCounts)]
  let talk := if speaker ∈ dkeys st.1 then st.2 else st.2 ++ [(speaker, 0)]
  let duration := seg.stop.getD 0 - seg.start.getD 0
  (ints, dset talk speaker ((dget? talk speaker).getD 0 + duration))

/-- `speaker_interruptions[sp]["times_interrupted"] += 1` (the key is always
present in the source; the `getD` default makes the embedding total). -/
def bumpInterrupted (m : Dict (Option String) InterCounts) (sp : Option String) :
    Dict (Option String) InterCounts :=
  let c := (dget? m sp).getD zeroInterCounts
  dset m sp ⟨c.times_interrupted + 1, c.times_interrupting⟩

/-- `speaker_interruptions[sp]["times_interrupting"] += 1`. -/
def bumpInterrupting (m : Dict (Option String) InterCounts) (sp : Option String) :
    Dict (Option String) InterCounts :=
  let c := (dget? m sp).getD zeroInterCounts
  dset m sp ⟨c.times_interrupted, c.times_interrupting + 1⟩

/-- The body of the inner detection loop for the pair `(seg1, seg2)` with
`seg1` preceding `seg2`: on different speakers and a strictly positive
overlap, the speaker of `seg1` was interrupted and the speaker of `seg2` interrupted. -/
def detectPair (m : Dict (Option String) InterCounts) (seg1 seg2 : Segment) :
    Dict (Option String) InterCounts :=
  if seg1.speaker ≠ seg2.speaker then
    let overlap_start := max (seg1.start.getD 0) (seg2.start.getD 0)
    let overlap_end := min (seg1.stop.getD 0) (seg2.stop.getD 0)
    if overlap_start < overlap_end then
      bumpInterrupting (bumpInterrupted m seg1.speaker) seg2.speaker
    else m
  else m

/-- The nested detection loop: `for i, seg1: for seg2 in segments[i+1:]`. -/
def detectAll (m : Dict (Option String) InterCounts) :
    List Segment → Dict (Option String) InterCounts
  | [] => m
  | seg1 :: rest => detectAll (rest.foldl (fun m2 seg2 => detectPair m2 seg1 seg2) m) rest

/-- The per-speaker interruption record of the result dict. -/
structure InterMetrics where
  times_interrupted : ℕ
  times_interrupting : ℕ
  interruption_rate : ℚ
deriving DecidableEq

/-- The result loop entry for one speaker: interruptions per minute of the
own talk time of the speaker, guarded to 0 on non-positive talk time, rounded to 2
decimals. -/
def mkInterMetrics (c : InterCounts) (talk_time : ℚ) : InterMetrics :=
  let talk_time_minutes := talk_time / 60
  let interruption_rate :=
    if talk_time_minutes > 0 then
      ((c.times_interrupted + c.times_interrupting : ℕ) : ℚ) / talk_time_minutes
    else 0
  { times_interrupted := c.times_interrupted,
    times_interrupting := c.times_interrupting,
    interruption_rate := pyRound interruption_rate 2 }

/-- `calculate_per_speaker_interruptions`: empty for fewer than 2 segments,
else initialization pass, pairwise detection pass, and the rate loop. -/
def calculate_per_speaker_interruptions (segments : List Segment) :
    Dict (Option String) InterMetrics :=
  if segments.length < 2 then []
  else
    let st := segments.foldl initStep ([], [])
    let ints := detectAll st.1 segments
    ints.map (fun p => (p.1, mkInterMetrics p.2 ((dget? st.2 p.1).getD 0)))

/-- All ordered pairs `(l[i], l[j])` with `i < j`, in loop order. -/
def ltPairs {α : Type} : List α → List (α × α)
  | [] => []
  | a :: rest => rest.map (fun b => (a, b)) ++ ltPairs rest

/-- Strictly positive time overlap between two segments. -/
def overlapB (a b : Segment) : Bool :=
  decide (max (a.start.getD 0) (b.start.getD 0) < min (a.stop.getD 0) (b.stop.getD 0))

/-- Specification-side interruption pairs: ordered pairs of different-speaker
segments whose intervals strictly overlap. -/
def interPairs (segments : List Segment) : List (Segment × Segment) :=
  (ltPairs segments).filter (fun p => decide (p.1.speaker ≠ p.2.speaker) && overlapB p.1 p.2)

/-- Specification-side count of pairs in which label `sp` is the interrupted
(earlier) party. -/
def specInterrupted (segments : List Segment) (sp : Option String) : ℕ :=
  ((interPairs segments).filter (fun p => p.1.speaker = sp)).length

/-- Specification-side count of pairs in which label `sp` is the interrupting
(later) party. -/
def specInterrupting (segments : List Segment) (sp : Option String) : ℕ :=
  ((interPairs segments).filter (fun p => p.2.speaker = sp)).length

/-- The `times_interrupted` count reported for `sp` (0 when absent). -/
def timesInterruptedD (segments : List Segment) (sp : Option String) : ℕ :=
  ((dget? (calculate_per_speaker_interruptions segments) sp).map
    (fun c => c.times_interrupted)).getD 0

/-- The `times_interrupting` count reported for `sp` (0 when absent). -/
def timesInterruptingD (segments : List Segment) (sp : Option String) : ℕ :=
  ((dget? (calculate_per_speaker_interruptions segments) sp).map
    (fun c => c.times_interrupting)).getD 0

/-- Specification-side talk time of the raw (non-defaulted) speaker key `sp`. -/
def rawTalkTime (segments : List Segment) (sp : Option String) : ℚ :=
  ((segments.filter (fun s => s.speaker = sp)).map
    (fun s => s.stop.getD 0 - s.start.getD 0)).sum

/-- Sum of reported `times_interrupted` over all speakers. -/
def sumInterrupted (m : Dict (Option String) InterMetrics) : ℕ :=
  (m.map (fun p => p.2.times_interrupted)).sum

/-- Sum of reported `times_interrupting` over all speakers. -/
def sumInterrupting (m : Dict (Option String) InterMetrics) : ℕ :=
  (m.map (fun p => p.2.times_interrupting)).sum

/-! ## Per-speaker tip generation (step 4 of `process_job_task`, process.py 328-354) -/

/-- The merged statistics of a speaker at the start of step 4 (talk-time fields
plus the merged latency and interruption fields of step 3). -/
structure MergedStats where
  total_time : ℚ
  word_count : ℕ
  segments : ℕ
  percentage : ℚ
  response_latency : ℚ
  response_count : ℕ
  quick_responses_percentage : ℚ
  times_interrupted : ℕ
  times_interrupting : ℕ
  interruption_rate : ℚ
deriving DecidableEq

/-- The statistics of a speaker after step 4 added `communication_tips`. -/
structure TippedStats where
  stats : MergedStats
  communication_tips : List String
deriving DecidableEq

/-- The two hardcoded fallback tips of the `except` branch. -/
def fallbackTips : List String :=
  ["Focus on balanced participation in meetings.",
   "Practice active listening and timely responses."]

/-- The body of the per-speaker tip loop: the tip collaborator (the LLM
provider call, embedded as a fallible function) either succeeds, in which case
its tips are stored, or fails, in which case the two fallback tips are stored;
the other statistics of the speaker are untouched either way. -/
def generateTipsStep (tipGen : String → MergedStats → Except String (List String))
    (speaker : String) (stats : MergedStats) : TippedStats :=
  match tipGen speaker stats with
  | Except.ok tips => ⟨stats, tips⟩
  | Except.error _ => ⟨stats, fallbackTips⟩

/-- The whole per-speaker tip loop over the `speaker_stats` dict: every
speaker is processed; a failure for one speaker does not stop the loop. -/
def generateAllTips (tipGen : String → MergedStats → Except String (List String))
    (speaker_stats : Dict String MergedStats) : Dict String TippedStats :=
  speaker_stats.map (fun p => (p.1, generateTipsStep tipGen p.1 p.2))

/-! ## Aggregate interruption summary (modelled from the specification)

Section 4.3 "Aggregate outputs" of the specification (`total_count`,
`rate_per_minute`, a bounded sample of the first 10 events) has no
implementation under the Python backend source: `process_job_task` stores
`communication_metrics: None` and only the superseded heuristic
`calculate_communication_metrics` (routes/analysis.py, flagged as superseded
by the design notes of the specification) remains in the tree; the comment there
points at `supabase-backend/lib/ai/metrics.ts`, which is outside the provided
source. The definitions below are therefore modelled from the words of the
specification and checked for consistency against the in-source per-speaker
detector. -/

/-- One interruption event, carrying time, duration, interrupting speaker
(the chronologically later one) and interrupted speaker. -/
structure InterruptionEvent where
  time : ℚ
  duration : ℚ
  speaker : Option String
  interrupted : Option String
deriving DecidableEq

/-- Modelled from the spec: "for every unordered pair of segments `(i, j)`
with `i` preceding `j` in the input order and different speakers, compute
`overlap_start = max(start_i, start_j)`, `overlap_end = min(end_i, end_j)`;
if `overlap_start < overlap_end` record an interruption event with
`time = overlap_start`, `duration = overlap_end - overlap_start`,
`speaker = speaker_j`, `interrupted = speaker_i`". -/
def detect_interruption_events (segments : List Segment) : List InterruptionEvent :=
  (interPairs segments).map (fun p =>
    { time := max (p.1.start.getD 0) (p.2.start.getD 0),
      duration :=
        min (p.1.stop.getD 0) (p.2.stop.getD 0)
          - max (p.1.start.getD 0) (p.2.start.getD 0),
      speaker := p.2.speaker,
      interrupted := p.1.speaker })

/-- The aggregate interruption report. -/
structure InterruptionSummary where
  total_count : ℕ
  rate_per_minute : ℚ
  sample : List InterruptionEvent
deriving DecidableEq

/-- Modelled from the spec: "`total_count` = number of events;
`rate_per_minute = total_count / total_duration_minutes` where
`total_duration` is the `end` timestamp of the last segment (0 if no segments
⇒ rate 0)", with the division-by-zero guard of §7 defaulting the rate to 0;
"a sample list of the first N events (bounded, e.g. 10) is retained". -/
def interruption_summary (segments : List Segment) : InterruptionSummary :=
  let events := detect_interruption_events segments
  let total_duration := (segments.getLast?).elim 0 (fun s => s.stop.getD 0)
  { total_count := events.length,
    rate_per_minute :=
      if 0 < total_duration then (events.length : ℚ) / (total_duration / 60)
      else 0,
    sample := events.take 10 }

/-! ## Concrete inputs used by counterexamples and witnesses -/

/-- Five speakers with durations 20.04 s (four times) and 19.84 s: every share
rounds down by 0.04, so the reported percentages sum to 99.8. -/
def c2segs : List Segment :=
  [⟨some 0, some (2004/100), some "A", none⟩,
   ⟨some 0, some (2004/100), some "B", none⟩,
   ⟨some 0, some (2004/100), some "C", none⟩,
   ⟨some 0, some (2004/100), some "D", none⟩,
   ⟨some 0, some (1984/100), some "E", none⟩]

/-- One one-second segment: its share is exactly 100. -/
def w2segs : List Segment := [⟨some 0, some 1, some "A", none⟩]

/-- Two zero-duration segments: the grand total of talk time is 0. -/
def w2zsegs : List Segment :=
  [⟨some 0, some 0, some "A", none⟩, ⟨some 1, some 1, some "B", none⟩]

/-- Two fully overlapping 9-second segments of different speakers: each talk
time is 0.15 min and the exact rate 20/3 is not representable at 2 decimals. -/
def c6segs : List Segment :=
  [⟨some 0, some 9, some "A", none⟩, ⟨some 0, some 9, some "B", none⟩]

/-- A segment without a speaker label overlapping a labelled one. -/
def c7segs : List Segment :=
  [⟨some 0, some 5, none, none⟩, ⟨some 3, some 8, some "A", none⟩]

/-- The overlapping-segments scenario of the specification: `(0,5,"A")`, `(3,8,"B")`. -/
def w5segs : List Segment :=
  [⟨some 0, some 5, some "A", none⟩, ⟨some 3, some 8, some "B", none⟩]

/-- Two overlapping segments of speakers "A" and "B". -/
def w9segs : List Segment :=
  [⟨some 0, some 5, some "A", none⟩, ⟨some 3, some 8, some "B", none⟩]

/-- A later, disjoint segment of the fresh speaker "C". -/
def w9new : Segment := ⟨some 10, some 12, some "C", none⟩

/-- Two overlapping segments of speakers "A" and "B". -/
def w10segs : List Segment :=
  [⟨some 0, some 5, some "A", none⟩, ⟨some 3, some 8, some "B", none⟩]

/-- A concrete merged-statistics record. -/
def w8stats : MergedStats := ⟨0, 0, 0, 0, 0, 0, 0, 0, 0, 0⟩

/-- A tip collaborator that throws for speaker "A" only. -/
def w8gen (speaker : String) (stats : MergedStats) : Except String (List String) :=
  if speaker = "A" then Except.error "LLM unavailable"
  else Except.ok ["Custom tip for " ++ speaker ++ " with " ++ toString stats.word_count ++ " words"]

/-- A two-speaker statistics dict entering the tip loop. -/
def w8m : Dict String MergedStats := [("A", w8stats), ("B", w8stats)]

/-! ## Auxiliary views used by the proofs -/

/-- The record stored for `sp` (zero when the key is absent). -/
def statsVal (m : Dict String RawStats) (sp : String) : RawStats :=
  (dget? m sp).getD zeroRawStats

/-- Sum of accumulated `total_time` over a raw statistics dict. -/
def sumTime (m : Dict String RawStats) : ℚ :=
  (m.map (fun p => p.2.total_time)).sum

/-- The counters stored for `sp` (zero when the key is absent). -/
def countsVal (m : Dict (Option String) InterCounts) (sp : Option String) : InterCounts :=
  (dget? m sp).getD zeroInterCounts

/-- The talk time stored for `sp` (zero when the key is absent). -/
def talkVal (m : Dict (Option String) ℚ) (sp : Option String) : ℚ :=
  (dget? m sp).getD 0

/-- Sum of accumulated `times_interrupted` over a counter dict. -/
def sumTIc (m : Dict (Option String) InterCounts) : ℕ :=
  (m.map (fun p => p.2.times_interrupted)).sum

/-- Sum of accumulated `times_interrupting` over a counter dict. -/
def sumTGc (m : Dict (Option String) InterCounts) : ℕ :=
  (m.map (fun p => p.2.times_interrupting)).sum

/-- The detection predicate: different speakers and strict overlap. -/
def hitB (a b : Segment) : Bool :=
  decide (a.speaker ≠ b.speaker) && overlapB a b

/-! ## Dictionary lemmas -/

theorem dget?_dset_self {K V : Type} [DecidableEq K] (m : Dict K V) (k : K) (v : V) :
    dget? (dset m k v) k = some v := by
  induction m with
  | nil => simp [dset, dget?]
  | cons p m ih =>
    obtain ⟨a, b⟩ := p
    by_cases h : k = a
    · simp [dset, dget?, h]
    · simp [dset, dget?, h, ih]

theorem dget?_dset_ne {K V : Type} [DecidableEq K] (m : Dict K V) (k k' : K) (v : V)
    (h : k' ≠ k) : dget? (dset m k v) k' = dget? m k' := by
  induction m with
  | nil => simp [dset, dget?, h]
  | cons p m ih =>
    obtain ⟨a, b⟩ := p
    by_cases hk : k = a
    · subst hk
      simp [dset, dget?, h]
    · by_cases hk' : k' = a
      · simp [dset, dget?, hk, hk']
      · simp [dset, dget?, hk, hk', ih]

theorem mem_dkeys_dset {K V : Type} [DecidableEq K] (m : Dict K V) (k : K) (v : V)
    (k' : K) : k' ∈ dkeys (dset m k v) ↔ k' ∈ dkeys m ∨ k' = k := by
  induction m with
  | nil => simp [dset, dkeys]
  | cons p m ih =>
    obtain ⟨a, b⟩ := p
    by_cases hk : k = a
    · subst hk
      simp [dset, dkeys]
      tauto
    · simp [dset, dkeys, hk] at ih ⊢
      tauto

theorem dget?_isSome_iff {K V : Type} [DecidableEq K] (m : Dict K V) (k : K) :
    (dget? m k).isSome ↔ k ∈ dkeys m := by
  induction m with
  | nil => simp [dget?, dkeys]
  | cons p m ih =>
    obtain ⟨a, b⟩ := p
    by_cases h : k = a
    · simp [dget?, dkeys, h]
    · simp [dget?, dkeys, h, ih]

theorem dget?_eq_none_iff {K V : Type} [DecidableEq K] (m : Dict K V) (k : K) :
    dget? m k = none ↔ k ∉ dkeys m := by
  rw [← dget?_isSome_iff]
  cases dget? m k <;> simp

theorem dget?_append_left {K V : Type} [DecidableEq K] {m₁ : Dict K V} {k : K} {v : V}
    (m₂ : Dict K V) (h : dget? m₁ k = some v) : dget? (m₁ ++ m₂) k = some v := by
  induction m₁ with
  | nil => simp [dget?] at h
  | cons p m ih =>
    obtain ⟨a, b⟩ := p
    by_cases hk : k = a
    · simp [dget?, hk] at h ⊢
      exact h
    · simp [dget?, hk] at h ⊢
      exact ih h

theorem dget?_append_right {K V : Type} [DecidableEq K] {m₁ : Dict K V} {k : K}
    (m₂ : Dict K V) (h : dget? m₁ k = none) : dget? (m₁ ++ m₂) k = dget? m₂ k := by
  induction m₁ with
  | nil => simp
  | cons p m ih =>
    obtain ⟨a, b⟩ := p
    by_cases hk : k = a
    · simp [dget?, hk] at h
    · simp [dget?, hk] at h ⊢
      exact ih h

theorem dget?_map_snd {K V W : Type} [DecidableEq K] (m : Dict K V) (f : K → V → W)
    (k : K) :
    dget? (m.map (fun p => (p.1, f p.1 p.2))) k = (dget? m k).map (f k) := by
  induction m with
  | nil => simp [dget?]
  | cons p m ih =>
    obtain ⟨a, b⟩ := p
    by_cases h : k = a
    · simp [dget?, h]
    · simp [dget?, h, ih]

theorem dkeys_map_snd {K V W : Type} (m : Dict K V) (f : K → V → W) :
    dkeys (m.map (fun p => (p.1, f p.1 p.2))) = dkeys m := by
  induction m with
  | nil => rfl
  | cons p m ih => simp [dkeys]

theorem mem_of_mem_dset {K V : Type} [DecidableEq K] {m : Dict K V} {k : K} {v : V}
    {p : K × V} (h : p ∈ dset m k v) : p ∈ m ∨ p = (k, v) := by
  induction m with
  | nil => simpa [dset] using h
  | cons q m ih =>
    obtain ⟨a, b⟩ := q
    by_cases hk : k = a
    · simp [dset, hk] at h
      rcases h with h | h
      · subst hk
        right
        simp [h]
      · left
        simp [h]
    · simp [dset, hk] at h
      rcases h with h | h
      · left
        simp [h]
      · rcases ih h with h' | h'
        · left
          simp [h']
        · right
          exact h'

/-! ## Rounding lemmas -/

theorem roundHalfEven_sub_abs_le (q : ℚ) : |(roundHalfEven q : ℚ) - q| ≤ 1/2 := by
  have hle : (⌊q⌋ : ℚ) ≤ q := Int.floor_le q
  have hlt : q < ⌊q⌋ + 1 := Int.lt_floor_add_one q
  unfold roundHalfEven
  split_ifs with h1 h2 h3 <;>
    · rw [abs_le]
      constructor <;> push_cast <;> linarith

theorem pyRound_one_sub_abs_le (x : ℚ) : |pyRound x 1 - x| ≤ 1/20 := by
  have h := roundHalfEven_sub_abs_le (x * 10 ^ 1)
  unfold pyRound
  have h2 : ((roundHalfEven (x * 10 ^ 1) : ℚ) / 10 ^ 1 - x)
      = ((roundHalfEven (x * 10 ^ 1) : ℚ) - x * 10 ^ 1) / 10 ^ 1 := by
    ring
  rw [h2, abs_div]
  rw [show |((10:ℚ) ^ 1)| = 10 by norm_num]
  rw [div_le_iff₀ (by norm_num : (0:ℚ) < 10)]
  calc |(roundHalfEven (x * 10 ^ 1) : ℚ) - x * 10 ^ 1| ≤ 1/2 := h
    _ ≤ 1/20 * 10 := by norm_num

theorem pyRound_zero (n : ℕ) : pyRound 0 n = 0 := by
  have h : ((0:ℚ) * 10 ^ n) = 0 := by ring
  rw [pyRound, h]
  norm_num [roundHalfEven]

/-! ## Talk-time aggregation lemmas -/

theorem statsVal_dset (m : Dict String RawStats) (k sp : String) (v : RawStats) :
    statsVal (dset m k v) sp = if k = sp then v else statsVal m sp := by
  by_cases h : k = sp
  · subst h
    simp [statsVal, dget?_dset_self]
  · rw [statsVal, dget?_dset_ne m k sp v (fun hc => h hc.symm)]
    simp [statsVal, h]

theorem statsVal_statsStep (m : Dict String RawStats) (a : Segment) (sp : String) :
    statsVal (statsStep m a) sp =
      if a.speaker.getD "Unknown" = sp then
        ⟨(statsVal m sp).total_time + (a.stop.getD 0 - a.start.getD 0),
         (statsVal m sp).word_count + pyWordCount (a.text.getD ""),
         (statsVal m sp).segments + 1⟩
      else statsVal m sp := by
  rw [statsStep, statsVal_dset]
  by_cases h : a.speaker.getD "Unknown" = sp
  · simp only [h, if_true]
    subst h
    rfl
  · simp only [h, if_false]

theorem statsVal_foldl (segs : List Segment) :
    ∀ (m : Dict String RawStats) (sp : String),
      statsVal (segs.foldl statsStep m) sp =
        ⟨(statsVal m sp).total_time + timeSum segs sp,
         (statsVal m sp).word_count + wordSum segs sp,
         (statsVal m sp).segments + (segsOf segs sp).length⟩ := by
  induction segs with
  | nil => intro m sp; simp [timeSum, wordSum, segsOf]
  | cons a segs ih =>
    intro m sp
    rw [List.foldl_cons, ih, statsVal_statsStep]
    by_cases h : a.speaker.getD "Unknown" = sp
    · simp only [h, if_true, timeSum, wordSum, segsOf, List.filter_cons,
        decide_eq_true_eq, h, if_true, List.map_cons, List.sum_cons, List.length_cons]
      refine RawStats.mk.injEq .. ▸ ⟨by ring, by omega, by omega⟩
    · simp only [h, if_false, timeSum, wordSum, segsOf, List.filter_cons,
        decide_eq_true_eq, h, if_false]

theorem mem_dkeys_statsStep (m : Dict String RawStats) (a : Segment) (sp : String) :
    sp ∈ dkeys (statsStep m a) ↔ sp ∈ dkeys m ∨ a.speaker.getD "Unknown" = sp := by
  rw [statsStep, mem_dkeys_dset]
  constructor <;> (rintro (h | h) <;> [exact Or.inl h; exact Or.inr h.symm])

theorem mem_dkeys_foldl_statsStep (segs : List Segment) :
    ∀ (m : Dict String RawStats) (sp : String),
      sp ∈ dkeys (segs.foldl statsStep m) ↔ sp ∈ dkeys m ∨ sp ∈ unknownLabels segs := by
  induction segs with
  | nil => intro m sp; simp [unknownLabels]
  | cons a segs ih =>
    intro m sp
    rw [List.foldl_cons, ih, mem_dkeys_statsStep]
    simp only [unknownLabels, List.map_cons, List.mem_cons]
    tauto

theorem sumTime_dset_add (d : ℚ) :
    ∀ (m : Dict String RawStats) (k : String) (w : RawStats),
      w.total_time = ((dget? m k).getD zeroRawStats).total_time + d →
      sumTime (dset m k w) = sumTime m + d := by
  intro m
  induction m with
  | nil =>
    intro k w hw
    simp [dget?, zeroRawStats] at hw
    simp [dset, sumTime, hw]
  | cons p m ih =>
    obtain ⟨a, b⟩ := p
    intro k w hw
    by_cases hk : k = a
    · subst hk
      simp only [dget?, if_pos rfl, Option.getD_some] at hw
      simp [dset, sumTime, hw]
      ring
    · simp only [dget?, if_neg hk] at hw
      simp only [dset, if_neg hk]
      simp only [sumTime, List.map_cons, List.sum_cons] at ih ⊢
      rw [ih k w hw]
      ring

theorem sumTime_statsStep (m : Dict String RawStats) (a : Segment) :
    sumTime (statsStep m a) = sumTime m + (a.stop.getD 0 - a.start.getD 0) := by
  rw [statsStep]
  exact sumTime_dset_add _ m _ _ rfl

theorem sumTime_foldl (segs : List Segment) :
    ∀ m : Dict String RawStats,
      sumTime (segs.foldl statsStep m) = sumTime m + grandTotal segs := by
  induction segs with
  | nil => intro m; simp [grandTotal]
  | cons a segs ih =>
    intro m
    rw [List.foldl_cons, ih, sumTime_statsStep]
    simp only [grandTotal, List.map_cons, List.sum_cons]
    ring

theorem dget?_rawSpeakerStats (segs : List Segment) (sp : String) :
    dget? (rawSpeakerStats segs) sp =
      if sp ∈ unknownLabels segs then
        some ⟨timeSum segs sp, wordSum segs sp, (segsOf segs sp).length⟩
      else none := by
  by_cases h : sp ∈ unknownLabels segs
  · have hmem : sp ∈ dkeys (rawSpeakerStats segs) := by
      rw [rawSpeakerStats, mem_dkeys_foldl_statsStep]
      exact Or.inr h
    rw [← dget?_isSome_iff] at hmem
    obtain ⟨v, hv⟩ := Option.isSome_iff_exists.mp hmem
    have hval := statsVal_foldl segs [] sp
    rw [← rawSpeakerStats] at hval
    rw [statsVal, hv] at hval
    simp only [Option.getD_some] at hval
    rw [hv, hval, if_pos h]
    simp [statsVal, dget?, zeroRawStats]
  · have hmem : sp ∉ dkeys (rawSpeakerStats segs) := by
      rw [rawSpeakerStats, mem_dkeys_foldl_statsStep]
      simp [dkeys, h]
    rw [(dget?_eq_none_iff _ _).mpr hmem, if_neg h]

theorem sumTime_rawSpeakerStats (segs : List Segment) :
    sumTime (rawSpeakerStats segs) = grandTotal segs := by
  rw [rawSpeakerStats, sumTime_foldl]
  simp [sumTime]

/-- Claim C4: for every segment list the talk-time aggregation step reports,
for each speaker label occurring in the (Unknown-defaulted) input, the sum of
`end - start` over the segments of that speaker rounded to 2 decimals, the sum of
the whitespace-split word counts of their texts, the segment count, and
`round(total / grand_total * 100, 1)` as percentage when the grand total is
positive and `0` otherwise; labels not occurring are absent, and the empty
segment list yields the empty mapping. -/
theorem dget?_finalizeStats (m : Dict String RawStats) (sp : String) :
    dget? (finalizeStats m) sp = (dget? m sp).map (fun v =>
      (⟨pyRound v.total_time 2, v.word_count, v.segments,
        if sumTime m > 0 then pyRound (v.total_time / sumTime m * 100) 1
        else 0⟩ : SpeakerStats)) := by
  simp only [finalizeStats, sumTime]
  exact dget?_map_snd m (fun _ v =>
    (⟨pyRound v.total_time 2, v.word_count, v.segments,
      if (List.map (fun p => p.2.total_time) m).sum > 0 then
        pyRound (v.total_time / (List.map (fun p => p.2.total_time) m).sum * 100) 1
      else 0⟩ : SpeakerStats)) sp

theorem dkeys_finalizeStats (m : Dict String RawStats) : dkeys (finalizeStats m) = dkeys m := by
  simp only [finalizeStats]
  exact dkeys_map_snd m (fun _ v =>
    (⟨pyRound v.total_time 2, v.word_count, v.segments,
      if (List.map (fun p => p.2.total_time) m).sum > 0 then
        pyRound (v.total_time / (List.map (fun p => p.2.total_time) m).sum * 100) 1
      else 0⟩ : SpeakerStats))

theorem speaker_stats_characterization (segs : List Segment) (sp : String) :
    dget? (calculate_speaker_stats segs) sp =
      (if sp ∈ unknownLabels segs then
        some ⟨pyRound (timeSum segs sp) 2, wordSum segs sp, (segsOf segs sp).length,
          if 0 < grandTotal segs then pyRound (timeSum segs sp / grandTotal segs * 100) 1
          else 0⟩
      else none) ∧ calculate_speaker_stats [] = [] := by
  constructor
  · rw [calculate_speaker_stats, dget?_finalizeStats, dget?_rawSpeakerStats,
      sumTime_rawSpeakerStats]
    by_cases h : sp ∈ unknownLabels segs
    · simp only [if_pos h, Option.map_some]
      rfl
    · simp only [if_neg h]
      rfl
  · rfl

/-! ## Percentage-sum lemmas (claim C2) -/

theorem sum_map_div_mul (l : List ℚ) (T : ℚ) :
    (l.map (fun x => x / T * 100)).sum = l.sum / T * 100 := by
  induction l with
  | nil => simp
  | cons x l ih =>
    simp only [List.map_cons, List.sum_cons, ih]
    ring

theorem sum_pyRound_close (l : List ℚ) :
    |(l.map (fun x => pyRound x 1)).sum - l.sum| ≤ (l.length : ℚ) * (1/20) := by
  induction l with
  | nil => simp
  | cons x l ih =>
    simp only [List.map_cons, List.sum_cons, List.length_cons]
    have h1 := pyRound_one_sub_abs_le x
    have h2 : |pyRound x 1 + (l.map (fun x => pyRound x 1)).sum - (x + l.sum)|
        ≤ |pyRound x 1 - x| + |(l.map (fun x => pyRound x 1)).sum - l.sum| := by
      have h3 : pyRound x 1 + (l.map (fun x => pyRound x 1)).sum - (x + l.sum)
          = (pyRound x 1 - x) + ((l.map (fun x => pyRound x 1)).sum - l.sum) := by
        ring
      rw [h3]
      exact abs_add _ _
    have h4 : ((l.length + 1 : ℕ) : ℚ) = (l.length : ℚ) + 1 := by push_cast; ring
    rw [h4]
    calc |pyRound x 1 + (l.map (fun x => pyRound x 1)).sum - (x + l.sum)|
        ≤ |pyRound x 1 - x| + |(l.map (fun x => pyRound x 1)).sum - l.sum| := h2
      _ ≤ 1/20 + (l.length : ℚ) * (1/20) := add_le_add h1 ih
      _ = ((l.length : ℚ) + 1) * (1/20) := by ring

theorem sumPercentages_finalize (m : Dict String RawStats) :
    sumPercentages (finalizeStats m) =
      ((m.map (fun p => p.2.total_time)).map
        (fun x => if sumTime m > 0 then pyRound (x / sumTime m * 100) 1 else 0)).sum := by
  simp only [sumPercentages, finalizeStats, List.map_map, sumTime]
  rfl

/-- Claim C2 (amended): the per-speaker percentages are individually rounded to
one decimal, so their sum differs from 100 by at most 0.05 per speaker — not
by at most 0.1 overall — whenever the grand total of talk time is positive;
when the grand total is 0 every percentage is 0 (and so is their sum). -/
theorem percentage_sum_bound (segs : List Segment) :
    (0 < grandTotal segs →
      |sumPercentages (calculate_speaker_stats segs) - 100|
        ≤ ((calculate_speaker_stats segs).length : ℚ) * (1/20)) ∧
    (grandTotal segs = 0 →
      sumPercentages (calculate_speaker_stats segs) = 0 ∧
      ∀ p ∈ calculate_speaker_stats segs, p.2.percentage = 0) := by
  have hlen : (calculate_speaker_stats segs).length = (rawSpeakerStats segs).length := by
    simp [calculate_speaker_stats, finalizeStats]
  constructor
  · intro hT
    have hfin : sumPercentages (calculate_speaker_stats segs)
        = (((rawSpeakerStats segs).map (fun p => p.2.total_time)).map
            (fun x => pyRound (x / grandTotal segs * 100) 1)).sum := by
      rw [calculate_speaker_stats, sumPercentages_finalize, sumTime_rawSpeakerStats]
      simp only [if_pos (show grandTotal segs > 0 from hT)]
    rw [hfin]
    have h100 : (((rawSpeakerStats segs).map (fun p => p.2.total_time)).map
        (fun x => x / grandTotal segs * 100)).sum = 100 := by
      rw [sum_map_div_mul,
        show ((rawSpeakerStats segs).map (fun p => p.2.total_time)).sum
          = sumTime (rawSpeakerStats segs) from rfl,
        sumTime_rawSpeakerStats, div_self (ne_of_gt hT)]
      norm_num
    have hclose := sum_pyRound_close
      (((rawSpeakerStats segs).map (fun p => p.2.total_time)).map
        (fun x => x / grandTotal segs * 100))
    rw [h100] at hclose
    have hmaps : ((rawSpeakerStats segs).map (fun p => p.2.total_time)).map
          (fun x => pyRound (x / grandTotal segs * 100) 1)
        = (((rawSpeakerStats segs).map (fun p => p.2.total_time)).map
            (fun x => x / grandTotal segs * 100)).map (fun y => pyRound y 1) := by
      simp only [List.map_map]
      rfl
    rw [hmaps]
    refine le_trans hclose (le_of_eq ?_)
    simp [hlen, calculate_speaker_stats, finalizeStats]
  · intro hT0
    have hT' : ¬ ((rawSpeakerStats segs).map (fun p => p.2.total_time)).sum > 0 := by
      rw [show ((rawSpeakerStats segs).map (fun p => p.2.total_time)).sum
          = sumTime (rawSpeakerStats segs) from rfl, sumTime_rawSpeakerStats, hT0]
      norm_num
    constructor
    · rw [calculate_speaker_stats, sumPercentages_finalize]
      simp only [show sumTime (rawSpeakerStats segs)
          = ((rawSpeakerStats segs).map (fun p => p.2.total_time)).sum from rfl]
      simp only [if_neg hT']
      apply List.sum_eq_zero
      intro x hx
      rcases List.mem_map.mp hx with ⟨y, _, hy⟩
      exact hy.symm
    · intro p hp
      rw [calculate_speaker_stats, finalizeStats] at hp
      rcases List.mem_map.mp hp with ⟨q, _, rfl⟩
      simp [if_neg hT']

/-- Claim C2, counterexample: with five speakers of durations 20.04 s (four
times) and 19.84 s every share rounds down by 0.04, the reported percentages
sum to 99.8, and |99.8 - 100| = 0.2 exceeds the claimed 0.1 tolerance even
though the grand total of talk time is positive. -/
theorem percentage_sum_counterexample :
    0 < grandTotal c2segs ∧
      ¬ (|sumPercentages (calculate_speaker_stats c2segs) - 100| ≤ 1/10) := by
  constructor
  · norm_num [grandTotal, c2segs]
  · have h : sumPercentages (calculate_speaker_stats c2segs) = 998/10 := by
      simp [c2segs, calculate_speaker_stats, rawSpeakerStats, finalizeStats, sumPercentages,
        statsStep, dset, dget?, zeroRawStats, pyWordCount, countWords]
      norm_num [pyRound, roundHalfEven]
    rw [h]
    rw [abs_sub_comm, abs_of_nonneg (by norm_num)]
    norm_num

/-- Witness for the amended percentage-sum bound: a one-segment meeting has a
positive grand total and percentage sum exactly 100, and a meeting of
zero-duration segments has grand total 0 and percentage sum 0. -/
theorem percentage_sum_bound_witness :
    (0 < grandTotal w2segs ∧
      |sumPercentages (calculate_speaker_stats w2segs) - 100|
        ≤ ((calculate_speaker_stats w2segs).length : ℚ) * (1/20)) ∧
    (grandTotal w2zsegs = 0 ∧ sumPercentages (calculate_speaker_stats w2zsegs) = 0) := by
  have h1 : 0 < grandTotal w2segs := by norm_num [grandTotal, w2segs]
  have h2 : grandTotal w2zsegs = 0 := by norm_num [grandTotal, w2zsegs]
  exact ⟨⟨h1, (percentage_sum_bound w2segs).1 h1⟩,
    ⟨h2, ((percentage_sum_bound w2zsegs).2 h2).1⟩⟩

/-! ## Response-latency lemmas (claim C3) -/

theorem dget?_some_mem {K V : Type} [DecidableEq K] {m : Dict K V} {k : K} {v : V}
    (h : dget? m k = some v) : (k, v) ∈ m := by
  induction m with
  | nil => simp [dget?] at h
  | cons p m ih =>
    obtain ⟨a, b⟩ := p
    by_cases hk : k = a
    · subst hk
      rw [show dget? ((k, b) :: m) k = some b from by simp [dget?]] at h
      injection h with h
      subst h
      exact List.mem_cons_self _ _
    · simp only [dget?, if_neg hk] at h
      exact List.mem_cons_of_mem _ (ih h)

theorem specGaps_nil (sp : Option String) : specGaps [] sp = [] := by
  simp [specGaps]

theorem specGaps_single (s : Segment) (sp : Option String) : specGaps [s] sp = [] := by
  simp [specGaps]

theorem specGaps_cons (prev cur : Segment) (rest : List Segment) (sp : Option String) :
    specGaps (prev :: cur :: rest) sp =
      (if (latCond prev cur && decide (0 ≤ cur.start.getD 0 - prev.stop.getD 0))
          && decide (cur.speaker = sp)
        then [cur.start.getD 0 - prev.stop.getD 0] else []) ++ specGaps (cur :: rest) sp := by
  simp only [specGaps, List.tail_cons, List.zip_cons_cons, List.filter_cons]
  cases h : (latCond prev cur && decide (0 ≤ cur.start.getD 0 - prev.stop.getD 0))
      && decide (cur.speaker = sp)
  · rw [if_neg (by simp [h]), if_neg (by simp [h])]
    rfl
  · rw [if_pos (by simp [h]), if_pos (by simp [h])]
    rfl

theorem gapsAux_val (rest : List Segment) :
    ∀ (gaps : Dict (Option String) (List ℚ)) (prev : Segment) (sp : Option String),
      (dget? (gapsAux gaps prev rest) sp).getD []
        = (dget? gaps sp).getD [] ++ specGaps (prev :: rest) sp := by
  induction rest with
  | nil =>
    intro gaps prev sp
    simp [gapsAux, specGaps_single]
  | cons cur rest ih =>
    intro gaps prev sp
    simp only [gapsAux]
    rw [specGaps_cons]
    by_cases hc : (latCond prev cur && decide (0 ≤ cur.start.getD 0 - prev.stop.getD 0)) = true
    · rw [if_pos hc]
      by_cases hsp : cur.speaker = sp
      · subst hsp
        rw [ih, dget?_dset_self]
        have hcond : ((latCond prev cur && decide (0 ≤ cur.start.getD 0 - prev.stop.getD 0))
            && decide (cur.speaker = cur.speaker)) = true := by
          rw [Bool.and_eq_true]
          exact ⟨hc, by simp⟩
        rw [if_pos hcond]
        simp [List.append_assoc]
      · rw [ih, dget?_dset_ne _ _ _ _ (fun hc2 => hsp hc2.symm)]
        have hcond : ¬ (((latCond prev cur && decide (0 ≤ cur.start.getD 0 - prev.stop.getD 0))
            && decide (cur.speaker = sp)) = true) := by
          simp [hsp]
        rw [if_neg hcond]
        simp
    · rw [if_neg hc, ih]
      have hcond : ¬ (((latCond prev cur && decide (0 ≤ cur.start.getD 0 - prev.stop.getD 0))
          && decide (cur.speaker = sp)) = true) := by
        intro hcontra
        rw [Bool.and_eq_true] at hcontra
        exact absurd hcontra.1 hc
      rw [if_neg hcond]
      simp

theorem bucketD_eq_specGaps (segs : List Segment) (sp : Option String) :
    bucketD segs sp = specGaps segs sp := by
  cases segs with
  | nil => simp [bucketD, speakerGaps, specGaps, dget?]
  | cons s rest =>
    rw [bucketD, speakerGaps, gapsAux_val]
    simp [dget?]

theorem gapsAux_values_ne_nil (rest : List Segment) :
    ∀ (gaps : Dict (Option String) (List ℚ)) (prev : Segment),
      (∀ p ∈ gaps, p.2 ≠ []) → ∀ p ∈ gapsAux gaps prev rest, p.2 ≠ [] := by
  induction rest with
  | nil =>
    intro gaps prev h
    simpa [gapsAux] using h
  | cons cur rest ih =>
    intro gaps prev h
    rw [gapsAux]
    by_cases hc : latCond prev cur && decide (0 ≤ cur.start.getD 0 - prev.stop.getD 0)
    · simp only [hc, if_true]
      apply ih
      intro p hp
      rcases mem_of_mem_dset hp with hmem | hval
      · exact h p hmem
      · rw [hval]
        simp
    · simp only [hc, if_false]
      exact ih gaps cur h

theorem speakerGaps_values_ne_nil (segs : List Segment) :
    ∀ p ∈ speakerGaps segs, p.2 ≠ [] := by
  cases segs with
  | nil => simp [speakerGaps]
  | cons s rest =>
    rw [speakerGaps]
    exact gapsAux_values_ne_nil rest [] s (by simp)

theorem filter_values_id (m : Dict (Option String) (List ℚ))
    (h : ∀ p ∈ m, p.2 ≠ []) : m.filter (fun p => !p.2.isEmpty) = m := by
  induction m with
  | nil => rfl
  | cons p m ih =>
    have hp : p.2 ≠ [] := h p (List.mem_cons_self _ _)
    have hp2 : (!p.2.isEmpty) = true := by
      simp [List.isEmpty_iff, hp]
    rw [List.filter_cons, if_pos hp2, ih (fun q hq => h q (List.mem_cons_of_mem _ hq))]

/-- Claim C3: the latency calculator records, for responding speaker `sp`,
exactly the gaps `cur.start - prev.end` at adjacent positions whose previous
speaker is present, non-empty and different from the current one and whose
gap is non-negative (a gap of exactly 0 included, negative gaps silently
dropped); the reported per-speaker entry exists iff at least 2 segments and at
least one recorded gap exist, and counts a recorded gap as quick iff it is
strictly below 1.0 (see `mkLatencyMetrics`). -/
theorem response_latency_characterization (segs : List Segment) (sp : Option String) :
    bucketD segs sp = specGaps segs sp ∧
    dget? (calculate_per_speaker_response_latency segs) sp =
      (if 2 ≤ segs.length ∧ specGaps segs sp ≠ [] then
        some (mkLatencyMetrics (specGaps segs sp)) else none) := by
  refine ⟨bucketD_eq_specGaps segs sp, ?_⟩
  by_cases hlen : segs.length < 2
  · rw [calculate_per_speaker_response_latency, if_pos hlen]
    have h2 : ¬ (2 ≤ segs.length ∧ specGaps segs sp ≠ []) := by
      rintro ⟨h2a, -⟩
      omega
    rw [if_neg h2]
    rfl
  · rw [calculate_per_speaker_response_latency, if_neg hlen,
      filter_values_id _ (speakerGaps_values_ne_nil segs),
      dget?_map_snd (speakerGaps segs) (fun _ v => mkLatencyMetrics v) sp]
    have h2 : 2 ≤ segs.length := by omega
    cases o : dget? (speakerGaps segs) sp with
    | none =>
      have hb : bucketD segs sp = [] := by
        rw [bucketD, o]
        rfl
      rw [bucketD_eq_specGaps] at hb
      rw [if_neg (by simp [hb])]
      rfl
    | some v =>
      have hv : v ≠ [] := (speakerGaps_values_ne_nil segs) (sp, v) (dget?_some_mem o)
      have hb : bucketD segs sp = v := by
        rw [bucketD, o]
        rfl
      rw [bucketD_eq_specGaps] at hb
      rw [if_pos ⟨h2, hb ▸ hv⟩]
      simp [← hb]

/-! ## Interruption-scan lemmas (claims C1, C6, C7, C9, C10) -/

theorem countsVal_append_zero (m : Dict (Option String) InterCounts) (k sp : Option String) :
    countsVal (m ++ [(k, zeroInterCounts)]) sp = countsVal m sp := by
  cases o : dget? m sp with
  | none =>
    rw [countsVal, dget?_append_right _ o, countsVal, o]
    by_cases h : sp = k <;> simp [dget?, h]
  | some v => rw [countsVal, dget?_append_left _ o, countsVal, o]

theorem talkVal_append_zero (m : Dict (Option String) ℚ) (k sp : Option String) :
    talkVal (m ++ [(k, 0)]) sp = talkVal m sp := by
  cases o : dget? m sp with
  | none =>
    rw [talkVal, dget?_append_right _ o, talkVal, o]
    by_cases h : sp = k <;> simp [dget?, h]
  | some v => rw [talkVal, dget?_append_left _ o, talkVal, o]

theorem initStep_fst (st : Dict (Option String) InterCounts × Dict (Option String) ℚ)
    (seg : Segment) :
    (initStep st seg).1
      = if seg.speaker ∈ dkeys st.1 then st.1 else st.1 ++ [(seg.speaker, zeroInterCounts)] := by
  by_cases h : seg.speaker ∈ dkeys st.1 <;> simp [initStep, h]

theorem countsVal_initStep (st : Dict (Option String) InterCounts × Dict (Option String) ℚ)
    (seg : Segment) (sp : Option String) :
    countsVal (initStep st seg).1 sp = countsVal st.1 sp := by
  rw [initStep_fst]
  by_cases h : seg.speaker ∈ dkeys st.1
  · rw [if_pos h]
  · rw [if_neg h, countsVal_append_zero]

theorem talkVal_initStep (st : Dict (Option String) InterCounts × Dict (Option String) ℚ)
    (seg : Segment) (sp : Option String) :
    talkVal (initStep st seg).2 sp
      = talkVal st.2 sp
        + (if seg.speaker = sp then seg.stop.getD 0 - seg.start.getD 0 else 0) := by
  have hbase :
      talkVal (if seg.speaker ∈ dkeys st.1 then st.2 else st.2 ++ [(seg.speaker, 0)]) sp
        = talkVal st.2 sp := by
    by_cases h : seg.speaker ∈ dkeys st.1
    · rw [if_pos h]
    · rw [if_neg h, talkVal_append_zero]
  have hstep : (initStep st seg).2
      = dset (if seg.speaker ∈ dkeys st.1 then st.2 else st.2 ++ [(seg.speaker, 0)])
          seg.speaker
          ((dget? (if seg.speaker ∈ dkeys st.1 then st.2 else st.2 ++ [(seg.speaker, 0)])
              seg.speaker).getD 0
            + (seg.stop.getD 0 - seg.start.getD 0)) := by
    by_cases h : seg.speaker ∈ dkeys st.1 <;> simp [initStep, h]
  rw [hstep]
  by_cases hsp : seg.speaker = sp
  · subst hsp
    rw [talkVal, dget?_dset_self, Option.getD_some, if_pos rfl]
    rw [show (dget? (if seg.speaker ∈ dkeys st.1 then st.2
        else st.2 ++ [(seg.speaker, 0)]) seg.speaker).getD 0
      = talkVal (if seg.speaker ∈ dkeys st.1 then st.2
          else st.2 ++ [(seg.speaker, 0)]) seg.speaker from rfl, hbase]
  · rw [talkVal, dget?_dset_ne _ _ _ _ (fun hc => hsp hc.symm), if_neg hsp, add_zero]
    exact hbase

theorem rawTalkTime_cons (a : Segment) (rest : List Segment) (sp : Option String) :
    rawTalkTime (a :: rest) sp
      = (if a.speaker = sp then a.stop.getD 0 - a.start.getD 0 else 0)
        + rawTalkTime rest sp := by
  by_cases h : a.speaker = sp <;>
    simp [rawTalkTime, List.filter_cons, h]

theorem foldl_initStep_counts (segs : List Segment) :
    ∀ (st : Dict (Option String) InterCounts × Dict (Option String) ℚ) (sp : Option String),
      countsVal ((segs.foldl initStep st).1) sp = countsVal st.1 sp := by
  induction segs with
  | nil => intro st sp; rfl
  | cons a segs ih =>
    intro st sp
    rw [List.foldl_cons, ih, countsVal_initStep]

theorem foldl_initStep_talk (segs : List Segment) :
    ∀ (st : Dict (Option String) InterCounts × Dict (Option String) ℚ) (sp : Option String),
      talkVal ((segs.foldl initStep st).2) sp = talkVal st.2 sp + rawTalkTime segs sp := by
  induction segs with
  | nil => intro st sp; simp [rawTalkTime]
  | cons a segs ih =>
    intro st sp
    rw [List.foldl_cons, ih, talkVal_initStep, rawTalkTime_cons]
    ring

theorem foldl_initStep_keys (segs : List Segment) :
    ∀ (st : Dict (Option String) InterCounts × Dict (Option String) ℚ) (sp : Option String),
      sp ∈ dkeys (segs.foldl initStep st).1
        ↔ sp ∈ dkeys st.1 ∨ sp ∈ segs.map (fun s => s.speaker) := by
  induction segs with
  | nil => intro st sp; simp
  | cons a segs ih =>
    intro st sp
    rw [List.foldl_cons, ih, initStep_fst]
    by_cases h : a.speaker ∈ dkeys st.1
    · rw [if_pos h]
      simp only [List.map_cons, List.mem_cons]
      constructor
      · rintro (hm | hm)
        · exact Or.inl hm
        · exact Or.inr (Or.inr hm)
      · rintro (hm | hm | hm)
        · exact Or.inl hm
        · exact Or.inl (hm ▸ h)
        · exact Or.inr hm
    · rw [if_neg h]
      simp only [dkeys, List.map_append, List.mem_append, List.map_cons, List.mem_cons,
        List.map_nil, List.mem_singleton]
      rw [show (List.map Prod.fst st.1 : List (Option String)) = dkeys st.1 from rfl]
      tauto

theorem countsVal_bumpInterrupted (m : Dict (Option String) InterCounts)
    (k sp : Option String) :
    countsVal (bumpInterrupted m k) sp
      = if k = sp then
          ⟨(countsVal m sp).times_interrupted + 1, (countsVal m sp).times_interrupting⟩
        else countsVal m sp := by
  by_cases h : k = sp
  · subst h
    rw [if_pos rfl, bumpInterrupted, countsVal, dget?_dset_self, Option.getD_some]
    rfl
  · rw [if_neg h, bumpInterrupted, countsVal,
      dget?_dset_ne _ _ _ _ (fun hc => h hc.symm)]
    rfl

theorem countsVal_bumpInterrupting (m : Dict (Option String) InterCounts)
    (k sp : Option String) :
    countsVal (bumpInterrupting m k) sp
      = if k = sp then
          ⟨(countsVal m sp).times_interrupted, (countsVal m sp).times_interrupting + 1⟩
        else countsVal m sp := by
  by_cases h : k = sp
  · subst h
    rw [if_pos rfl, bumpInterrupting, countsVal, dget?_dset_self, Option.getD_some]
    rfl
  · rw [if_neg h, bumpInterrupting, countsVal,
      dget?_dset_ne _ _ _ _ (fun hc => h hc.symm)]
    rfl

theorem countsVal_bumpInterrupted_snd (m : Dict (Option String) InterCounts)
    (k sp : Option String) :
    (countsVal (bumpInterrupted m k) sp).times_interrupting
      = (countsVal m sp).times_interrupting := by
  rw [countsVal_bumpInterrupted]
  by_cases h : k = sp <;> simp [h]

theorem countsVal_bumpInterrupting_fst (m : Dict (Option String) InterCounts)
    (k sp : Option String) :
    (countsVal (bumpInterrupting m k) sp).times_interrupted
      = (countsVal m sp).times_interrupted := by
  rw [countsVal_bumpInterrupting]
  by_cases h : k = sp <;> simp [h]

theorem detectPair_eq (m : Dict (Option String) InterCounts) (a b : Segment) :
    detectPair m a b
      = if hitB a b then bumpInterrupting (bumpInterrupted m a.speaker) b.speaker
        else m := by
  rw [detectPair, hitB, overlapB]
  by_cases h1 : a.speaker ≠ b.speaker
  · rw [if_pos h1]
    by_cases h2 : max (a.start.getD 0) (b.start.getD 0) < min (a.stop.getD 0) (b.stop.getD 0)
    · rw [if_pos h2, if_pos (by simp [h1, h2])]
    · rw [if_neg h2, if_neg (by simp [h1, h2])]
  · rw [if_neg h1, if_neg (by simp [not_not.mp h1])]

theorem countsVal_detectPair_fst (m : Dict (Option String) InterCounts) (a b : Segment)
    (sp : Option String) :
    (countsVal (detectPair m a b) sp).times_interrupted
      = (countsVal m sp).times_interrupted
        + (if hitB a b && decide (a.speaker = sp) then 1 else 0) := by
  rw [detectPair_eq]
  by_cases hh : hitB a b = true
  · rw [if_pos hh, countsVal_bumpInterrupting]
    by_cases hb : b.speaker = sp
    · rw [if_pos hb]
      by_cases ha : a.speaker = sp
      · exfalso
        have hne : a.speaker ≠ b.speaker := by
          rw [hitB, Bool.and_eq_true, decide_eq_true_eq] at hh
          exact hh.1
        exact hne (ha.trans hb.symm)
      · rw [countsVal_bumpInterrupted, if_neg ha]
        simp [ha, hh]
    · rw [if_neg hb, countsVal_bumpInterrupted]
      by_cases ha : a.speaker = sp
      · rw [if_pos ha]
        simp [ha, hh]
      · rw [if_neg ha]
        simp [ha, hh]
  · rw [if_neg hh]
    have hf : hitB a b = false := by
      revert hh
      cases hitB a b <;> simp
    simp [hf]

theorem countsVal_detectPair_snd (m : Dict (Option String) InterCounts) (a b : Segment)
    (sp : Option String) :
    (countsVal (detectPair m a b) sp).times_interrupting
      = (countsVal m sp).times_interrupting
        + (if hitB a b && decide (b.speaker = sp) then 1 else 0) := by
  rw [detectPair_eq]
  by_cases hh : hitB a b = true
  · rw [if_pos hh, countsVal_bumpInterrupting]
    by_cases hb : b.speaker = sp
    · rw [if_pos hb]
      simp [hb, hh, countsVal_bumpInterrupted_snd]
    · rw [if_neg hb]
      simp [hb, hh, countsVal_bumpInterrupted_snd]
  · rw [if_neg hh]
    have hf : hitB a b = false := by
      revert hh
      cases hitB a b <;> simp
    simp [hf]

theorem countsVal_foldl_detectPair (rest : List Segment) (a : Segment) :
    ∀ (m : Dict (Option String) InterCounts) (sp : Option String),
      (countsVal (rest.foldl (fun m2 b => detectPair m2 a b) m) sp).times_interrupted
          = (countsVal m sp).times_interrupted
            + rest.countP (fun b => hitB a b && decide (a.speaker = sp)) ∧
      (countsVal (rest.foldl (fun m2 b => detectPair m2 a b) m) sp).times_interrupting
          = (countsVal m sp).times_interrupting
            + rest.countP (fun b => hitB a b && decide (b.speaker = sp)) := by
  induction rest with
  | nil => intro m sp; simp
  | cons b rest ih =>
    intro m sp
    rw [List.foldl_cons]
    rcases ih (detectPair m a b) sp with ⟨ih1, ih2⟩
    constructor
    · rw [ih1, countsVal_detectPair_fst, List.countP_cons]
      by_cases h : (hitB a b && decide (a.speaker = sp)) = true
      · simp [h]
        omega
      · simp [h]
    · rw [ih2, countsVal_detectPair_snd, List.countP_cons]
      by_cases h : (hitB a b && decide (b.speaker = sp)) = true
      · simp [h]
        omega
      · simp [h]

theorem interPairs_cons (a : Segment) (rest : List Segment) :
    interPairs (a :: rest)
      = ((rest.filter (fun b => hitB a b)).map (fun b => (a, b))) ++ interPairs rest := by
  rw [interPairs, interPairs, ltPairs, List.filter_append]
  congr 1
  rw [List.filter_map]
  congr 1

theorem specInterrupted_cons (a : Segment) (rest : List Segment) (sp : Option String) :
    specInterrupted (a :: rest) sp
      = rest.countP (fun b => hitB a b && decide (a.speaker = sp))
        + specInterrupted rest sp := by
  rw [specInterrupted, interPairs_cons, List.filter_append, List.length_append]
  congr 1
  rw [List.filter_map, List.length_map, List.filter_filter, ← List.countP_eq_length_filter]
  simp only [Function.comp]
  simp [Bool.and_comm]

theorem specInterrupting_cons (a : Segment) (rest : List Segment) (sp : Option String) :
    specInterrupting (a :: rest) sp
      = rest.countP (fun b => hitB a b && decide (b.speaker = sp))
        + specInterrupting rest sp := by
  rw [specInterrupting, interPairs_cons, List.filter_append, List.length_append]
  congr 1
  rw [List.filter_map, List.length_map, List.filter_filter, ← List.countP_eq_length_filter]
  simp only [Function.comp]
  simp [Bool.and_comm]

theorem countsVal_detectAll (segs : List Segment) :
    ∀ (m : Dict (Option String) InterCounts) (sp : Option String),
      (countsVal (detectAll m segs) sp).times_interrupted
          = (countsVal m sp).times_interrupted + specInterrupted segs sp ∧
      (countsVal (detectAll m segs) sp).times_interrupting
          = (countsVal m sp).times_interrupting + specInterrupting segs sp := by
  induction segs with
  | nil =>
    intro m sp
    simp [detectAll, specInterrupted, specInterrupting, interPairs, ltPairs]
  | cons a rest ih =>
    intro m sp
    rw [detectAll]
    rcases ih (rest.foldl (fun m2 b => detectPair m2 a b) m) sp with ⟨ih1, ih2⟩
    rcases countsVal_foldl_detectPair rest a m sp with ⟨hf1, hf2⟩
    constructor
    · rw [ih1, hf1, specInterrupted_cons]
      omega
    · rw [ih2, hf2, specInterrupting_cons]
      omega

theorem mem_dkeys_detectPair_mono (m : Dict (Option String) InterCounts) (a b : Segment)
    (sp : Option String) (h : sp ∈ dkeys m) : sp ∈ dkeys (detectPair m a b) := by
  rw [detectPair_eq]
  by_cases hh : hitB a b = true
  · rw [if_pos hh, bumpInterrupting, bumpInterrupted]
    exact (mem_dkeys_dset _ _ _ _).mpr
      (Or.inl ((mem_dkeys_dset _ _ _ _).mpr (Or.inl h)))
  · rw [if_neg hh]
    exact h

theorem mem_dkeys_detectPair_sub (m : Dict (Option String) InterCounts) (a b : Segment)
    (sp : Option String) (h : sp ∈ dkeys (detectPair m a b)) :
    sp ∈ dkeys m ∨ sp = a.speaker ∨ sp = b.speaker := by
  rw [detectPair_eq] at h
  by_cases hh : hitB a b = true
  · rw [if_pos hh, bumpInterrupting, bumpInterrupted] at h
    rcases (mem_dkeys_dset _ _ _ _).mp h with h2 | h2
    · rcases (mem_dkeys_dset _ _ _ _).mp h2 with h3 | h3
      · exact Or.inl h3
      · exact Or.inr (Or.inl h3)
    · exact Or.inr (Or.inr h2)
  · rw [if_neg hh] at h
    exact Or.inl h

theorem mem_dkeys_foldl_detectPair_mono (rest : List Segment) (a : Segment) :
    ∀ (m : Dict (Option String) InterCounts) (sp : Option String),
      sp ∈ dkeys m → sp ∈ dkeys (rest.foldl (fun m2 b => detectPair m2 a b) m) := by
  induction rest with
  | nil => intro m sp h; exact h
  | cons b rest ih =>
    intro m sp h
    rw [List.foldl_cons]
    exact ih _ sp (mem_dkeys_detectPair_mono m a b sp h)

theorem mem_dkeys_foldl_detectPair_sub (rest : List Segment) (a : Segment) :
    ∀ (m : Dict (Option String) InterCounts) (sp : Option String),
      sp ∈ dkeys (rest.foldl (fun m2 b => detectPair m2 a b) m)
        → sp ∈ dkeys m ∨ sp = a.speaker ∨ sp ∈ rest.map (fun s => s.speaker) := by
  induction rest with
  | nil => intro m sp h; exact Or.inl h
  | cons b rest ih =>
    intro m sp h
    rw [List.foldl_cons] at h
    rcases ih _ sp h with h2 | h2 | h2
    · rcases mem_dkeys_detectPair_sub m a b sp h2 with h3 | h3 | h3
      · exact Or.inl h3
      · exact Or.inr (Or.inl h3)
      · exact Or.inr (Or.inr (by simp [h3]))
    · exact Or.inr (Or.inl h2)
    · exact Or.inr (Or.inr (by simp [h2]))

theorem mem_dkeys_detectAll_mono (segs : List Segment) :
    ∀ (m : Dict (Option String) InterCounts) (sp : Option String),
      sp ∈ dkeys m → sp ∈ dkeys (detectAll m segs) := by
  induction segs with
  | nil => intro m sp h; exact h
  | cons a rest ih =>
    intro m sp h
    rw [detectAll]
    exact ih _ sp (mem_dkeys_foldl_detectPair_mono rest a m sp h)

theorem mem_dkeys_detectAll_sub (segs : List Segment) :
    ∀ (m : Dict (Option String) InterCounts) (sp : Option String),
      sp ∈ dkeys (detectAll m segs)
        → sp ∈ dkeys m ∨ sp ∈ segs.map (fun s => s.speaker) := by
  induction segs with
  | nil => intro m sp h; exact Or.inl h
  | cons a rest ih =>
    intro m sp h
    rw [detectAll] at h
    rcases ih _ sp h with h2 | h2
    · rcases mem_dkeys_foldl_detectPair_sub rest a m sp h2 with h3 | h3 | h3
      · exact Or.inl h3
      · exact Or.inr (by simp [h3])
      · exact Or.inr (by simp [h3])
    · exact Or.inr (by simp [h2])

theorem dget?_calculate_inter (segs : List Segment) (sp : Option String)
    (h2 : ¬ segs.length < 2) :
    dget? (calculate_per_speaker_interruptions segs) sp
      = (dget? (detectAll (segs.foldl initStep ([], [])).1 segs) sp).map
          (fun c => mkInterMetrics c (talkVal (segs.foldl initStep ([], [])).2 sp)) := by
  rw [calculate_per_speaker_interruptions, if_neg h2]
  exact dget?_map_snd _
    (fun k v => mkInterMetrics v (talkVal (segs.foldl initStep ([], [])).2 k)) sp

theorem dkeys_calculate_inter (segs : List Segment) (h2 : ¬ segs.length < 2) :
    dkeys (calculate_per_speaker_interruptions segs)
      = dkeys (detectAll (segs.foldl initStep ([], [])).1 segs) := by
  rw [calculate_per_speaker_interruptions, if_neg h2]
  exact dkeys_map_snd _
    (fun k v => mkInterMetrics v (talkVal (segs.foldl initStep ([], [])).2 k))

theorem timesInterruptedD_eq (segs : List Segment) (sp : Option String)
    (hlen : ¬ segs.length < 2) :
    timesInterruptedD segs sp
      = (countsVal (detectAll (segs.foldl initStep ([], [])).1 segs) sp).times_interrupted := by
  rw [timesInterruptedD, dget?_calculate_inter segs sp hlen]
  cases o : dget? (detectAll (segs.foldl initStep ([], [])).1 segs) sp with
  | none => rw [countsVal, o]; rfl
  | some c => rw [countsVal, o]; rfl

theorem timesInterruptingD_eq (segs : List Segment) (sp : Option String)
    (hlen : ¬ segs.length < 2) :
    timesInterruptingD segs sp
      = (countsVal (detectAll (segs.foldl initStep ([], [])).1 segs) sp).times_interrupting := by
  rw [timesInterruptingD, dget?_calculate_inter segs sp hlen]
  cases o : dget? (detectAll (segs.foldl initStep ([], [])).1 segs) sp with
  | none => rw [countsVal, o]; rfl
  | some c => rw [countsVal, o]; rfl

theorem specInterrupted_short (segs : List Segment) (sp : Option String)
    (hlen : segs.length < 2) : specInterrupted segs sp = 0 := by
  cases segs with
  | nil => simp [specInterrupted, interPairs, ltPairs]
  | cons a tail =>
    cases tail with
    | nil => simp [specInterrupted, interPairs, ltPairs]
    | cons b tail2 =>
      simp at hlen
      omega

theorem specInterrupting_short (segs : List Segment) (sp : Option String)
    (hlen : segs.length < 2) : specInterrupting segs sp = 0 := by
  cases segs with
  | nil => simp [specInterrupting, interPairs, ltPairs]
  | cons a tail =>
    cases tail with
    | nil => simp [specInterrupting, interPairs, ltPairs]
    | cons b tail2 =>
      simp at hlen
      omega

theorem timesInterruptedD_eq_spec (segs : List Segment) (sp : Option String) :
    timesInterruptedD segs sp = specInterrupted segs sp := by
  by_cases hlen : segs.length < 2
  · rw [specInterrupted_short segs sp hlen, timesInterruptedD,
      calculate_per_speaker_interruptions, if_pos hlen]
    rfl
  · rw [timesInterruptedD_eq segs sp hlen,
      (countsVal_detectAll segs (segs.foldl initStep ([], [])).1 sp).1,
      foldl_initStep_counts]
    simp [countsVal, dget?, zeroInterCounts]

theorem timesInterruptingD_eq_spec (segs : List Segment) (sp : Option String) :
    timesInterruptingD segs sp = specInterrupting segs sp := by
  by_cases hlen : segs.length < 2
  · rw [specInterrupting_short segs sp hlen, timesInterruptingD,
      calculate_per_speaker_interruptions, if_pos hlen]
    rfl
  · rw [timesInterruptingD_eq segs sp hlen,
      (countsVal_detectAll segs (segs.foldl initStep ([], [])).1 sp).2,
      foldl_initStep_counts]
    simp [countsVal, dget?, zeroInterCounts]

/-- Claim C1: for every segment list and every speaker label, the reported
`times_interrupted` of a label equals the number of ordered pairs `(i, j)` with
`i` before `j`, different speakers, strictly overlapping intervals
(`max(start_i, start_j) < min(end_i, end_j)`, so exact touching is no overlap)
and label `i` = the label, and `times_interrupting` the number of such pairs
with label `j` = the label — i.e. each such pair is counted exactly once, as
`j` interrupting `i`, never both directions. -/
theorem interruption_pairwise_characterization (segs : List Segment) (sp : Option String) :
    timesInterruptedD segs sp = specInterrupted segs sp ∧
    timesInterruptingD segs sp = specInterrupting segs sp :=
  ⟨timesInterruptedD_eq_spec segs sp, timesInterruptingD_eq_spec segs sp⟩

/-! ## Sum symmetry lemmas (claim C10) -/

theorem sumTIc_append_zero (m : Dict (Option String) InterCounts) (k : Option String) :
    sumTIc (m ++ [(k, zeroInterCounts)]) = sumTIc m := by
  simp [sumTIc, zeroInterCounts]

theorem sumTGc_append_zero (m : Dict (Option String) InterCounts) (k : Option String) :
    sumTGc (m ++ [(k, zeroInterCounts)]) = sumTGc m := by
  simp [sumTGc, zeroInterCounts]

theorem sumTIc_foldl_initStep (segs : List Segment) :
    ∀ (st : Dict (Option String) InterCounts × Dict (Option String) ℚ),
      sumTIc ((segs.foldl initStep st).1) = sumTIc st.1 := by
  induction segs with
  | nil => intro st; rfl
  | cons a segs ih =>
    intro st
    rw [List.foldl_cons, ih, initStep_fst]
    by_cases h : a.speaker ∈ dkeys st.1
    · rw [if_pos h]
    · rw [if_neg h, sumTIc_append_zero]

theorem sumTGc_foldl_initStep (segs : List Segment) :
    ∀ (st : Dict (Option String) InterCounts × Dict (Option String) ℚ),
      sumTGc ((segs.foldl initStep st).1) = sumTGc st.1 := by
  induction segs with
  | nil => intro st; rfl
  | cons a segs ih =>
    intro st
    rw [List.foldl_cons, ih, initStep_fst]
    by_cases h : a.speaker ∈ dkeys st.1
    · rw [if_pos h]
    · rw [if_neg h, sumTGc_append_zero]

theorem sumTIc_dset_add :
    ∀ (m : Dict (Option String) InterCounts) (k : Option String) (w : InterCounts),
      w.times_interrupted = ((dget? m k).getD zeroInterCounts).times_interrupted + 1 →
      sumTIc (dset m k w) = sumTIc m + 1 := by
  intro m
  induction m with
  | nil =>
    intro k w hw
    simp [dget?, zeroInterCounts] at hw
    simp [dset, sumTIc, hw]
  | cons p m ih =>
    obtain ⟨a, b⟩ := p
    intro k w hw
    by_cases hk : k = a
    · subst hk
      simp only [dget?, if_pos rfl, Option.getD_some] at hw
      simp [dset, sumTIc, hw]
      omega
    · simp only [dget?, if_neg hk] at hw
      simp only [dset, if_neg hk]
      simp only [sumTIc, List.map_cons, List.sum_cons] at ih ⊢
      rw [ih k w hw]
      omega

theorem sumTIc_dset_keep :
    ∀ (m : Dict (Option String) InterCounts) (k : Option String) (w : InterCounts),
      w.times_interrupted = ((dget? m k).getD zeroInterCounts).times_interrupted →
      sumTIc (dset m k w) = sumTIc m := by
  intro m
  induction m with
  | nil =>
    intro k w hw
    simp [dget?, zeroInterCounts] at hw
    simp [dset, sumTIc, hw]
  | cons p m ih =>
    obtain ⟨a, b⟩ := p
    intro k w hw
    by_cases hk : k = a
    · subst hk
      simp only [dget?, if_pos rfl, Option.getD_some] at hw
      simp [dset, sumTIc, hw]
    · simp only [dget?, if_neg hk] at hw
      simp only [dset, if_neg hk]
      simp only [sumTIc, List.map_cons, List.sum_cons] at ih ⊢
      rw [ih k w hw]

theorem sumTGc_dset_add :
    ∀ (m : Dict (Option String) InterCounts) (k : Option String) (w : InterCounts),
      w.times_interrupting = ((dget? m k).getD zeroInterCounts).times_interrupting + 1 →
      sumTGc (dset m k w) = sumTGc m + 1 := by
  intro m
  induction m with
  | nil =>
    intro k w hw
    simp [dget?, zeroInterCounts] at hw
    simp [dset, sumTGc, hw]
  | cons p m ih =>
    obtain ⟨a, b⟩ := p
    intro k w hw
    by_cases hk : k = a
    · subst hk
      simp only [dget?, if_pos rfl, Option.getD_some] at hw
      simp [dset, sumTGc, hw]
      omega
    · simp only [dget?, if_neg hk] at hw
      simp only [dset, if_neg hk]
      simp only [sumTGc, List.map_cons, List.sum_cons] at ih ⊢
      rw [ih k w hw]
      omega

theorem sumTGc_dset_keep :
    ∀ (m : Dict (Option String) InterCounts) (k : Option String) (w : InterCounts),
      w.times_interrupting = ((dget? m k).getD zeroInterCounts).times_interrupting →
      sumTGc (dset m k w) = sumTGc m := by
  intro m
  induction m with
  | nil =>
    intro k w hw
    simp [dget?, zeroInterCounts] at hw
    simp [dset, sumTGc, hw]
  | cons p m ih =>
    obtain ⟨a, b⟩ := p
    intro k w hw
    by_cases hk : k = a
    · subst hk
      simp only [dget?, if_pos rfl, Option.getD_some] at hw
      simp [dset, sumTGc, hw]
    · simp only [dget?, if_neg hk] at hw
      simp only [dset, if_neg hk]
      simp only [sumTGc, List.map_cons, List.sum_cons] at ih ⊢
      rw [ih k w hw]

theorem sumTIc_bumpInterrupted (m : Dict (Option String) InterCounts) (k : Option String) :
    sumTIc (bumpInterrupted m k) = sumTIc m + 1 :=
  sumTIc_dset_add m k _ rfl

theorem sumTIc_bumpInterrupting (m : Dict (Option String) InterCounts) (k : Option String) :
    sumTIc (bumpInterrupting m k) = sumTIc m :=
  sumTIc_dset_keep m k _ rfl

theorem sumTGc_bumpInterrupted (m : Dict (Option String) InterCounts) (k : Option String) :
    sumTGc (bumpInterrupted m k) = sumTGc m :=
  sumTGc_dset_keep m k _ rfl

theorem sumTGc_bumpInterrupting (m : Dict (Option String) InterCounts) (k : Option String) :
    sumTGc (bumpInterrupting m k) = sumTGc m + 1 :=
  sumTGc_dset_add m k _ rfl

theorem sumTIc_detectPair (m : Dict (Option String) InterCounts) (a b : Segment) :
    sumTIc (detectPair m a b) = sumTIc m + (if hitB a b then 1 else 0) := by
  rw [detectPair_eq]
  by_cases hh : hitB a b = true
  · rw [if_pos hh, if_pos hh, sumTIc_bumpInterrupting, sumTIc_bumpInterrupted]
  · rw [if_neg hh, if_neg hh, Nat.add_zero]

theorem sumTGc_detectPair (m : Dict (Option String) InterCounts) (a b : Segment) :
    sumTGc (detectPair m a b) = sumTGc m + (if hitB a b then 1 else 0) := by
  rw [detectPair_eq]
  by_cases hh : hitB a b = true
  · rw [if_pos hh, if_pos hh, sumTGc_bumpInterrupting, sumTGc_bumpInterrupted]
  · rw [if_neg hh, if_neg hh, Nat.add_zero]

theorem sumTIc_foldl_detectPair (rest : List Segment) (a : Segment) :
    ∀ m : Dict (Option String) InterCounts,
      sumTIc (rest.foldl (fun m2 b => detectPair m2 a b) m)
        = sumTIc m + rest.countP (fun b => hitB a b) := by
  induction rest with
  | nil => intro m; simp
  | cons b rest ih =>
    intro m
    rw [List.foldl_cons, ih, sumTIc_detectPair, List.countP_cons]
    by_cases h : hitB a b = true
    · simp [h]
      omega
    · simp [h]

theorem sumTGc_foldl_detectPair (rest : List Segment) (a : Segment) :
    ∀ m : Dict (Option String) InterCounts,
      sumTGc (rest.foldl (fun m2 b => detectPair m2 a b) m)
        = sumTGc m + rest.countP (fun b => hitB a b) := by
  induction rest with
  | nil => intro m; simp
  | cons b rest ih =>
    intro m
    rw [List.foldl_cons, ih, sumTGc_detectPair, List.countP_cons]
    by_cases h : hitB a b = true
    · simp [h]
      omega
    · simp [h]

theorem length_interPairs_cons (a : Segment) (rest : List Segment) :
    (interPairs (a :: rest)).length
      = rest.countP (fun b => hitB a b) + (interPairs rest).length := by
  rw [interPairs_cons, List.length_append, List.length_map,
    ← List.countP_eq_length_filter]

theorem sumTIc_detectAll (segs : List Segment) :
    ∀ m : Dict (Option String) InterCounts,
      sumTIc (detectAll m segs) = sumTIc m + (interPairs segs).length := by
  induction segs with
  | nil =>
    intro m
    simp [detectAll, interPairs, ltPairs]
  | cons a rest ih =>
    intro m
    rw [detectAll, ih, sumTIc_foldl_detectPair, length_interPairs_cons]
    omega

theorem sumTGc_detectAll (segs : List Segment) :
    ∀ m : Dict (Option String) InterCounts,
      sumTGc (detectAll m segs) = sumTGc m + (interPairs segs).length := by
  induction segs with
  | nil =>
    intro m
    simp [detectAll, interPairs, ltPairs]
  | cons a rest ih =>
    intro m
    rw [detectAll, ih, sumTGc_foldl_detectPair, length_interPairs_cons]
    omega

theorem sumInterrupted_calc (segs : List Segment) (hlen : ¬ segs.length < 2) :
    sumInterrupted (calculate_per_speaker_interruptions segs)
      = sumTIc (detectAll (segs.foldl initStep ([], [])).1 segs) := by
  rw [calculate_per_speaker_interruptions, if_neg hlen]
  simp only [sumInterrupted, sumTIc, List.map_map]
  rfl

theorem sumInterrupting_calc (segs : List Segment) (hlen : ¬ segs.length < 2) :
    sumInterrupting (calculate_per_speaker_interruptions segs)
      = sumTGc (detectAll (segs.foldl initStep ([], [])).1 segs) := by
  rw [calculate_per_speaker_interruptions, if_neg hlen]
  simp only [sumInterrupting, sumTGc, List.map_map]
  rfl

/-- Claim C10: in the mapping returned by `calculate_per_speaker_interruptions`
the `times_interrupted` values of all speakers sum to the same total as their
`times_interrupting` values (each detected overlap increments exactly one of
each), and with at least 2 segments the mapping has an entry for every
distinct speaker label occurring in the input, including labels with no
interruption events. -/
theorem interruption_sum_symmetry (segs : List Segment) :
    sumInterrupted (calculate_per_speaker_interruptions segs)
      = sumInterrupting (calculate_per_speaker_interruptions segs) ∧
    (2 ≤ segs.length → ∀ sp ∈ segs.map (fun s => s.speaker),
      sp ∈ dkeys (calculate_per_speaker_interruptions segs)) := by
  constructor
  · by_cases hlen : segs.length < 2
    · rw [calculate_per_speaker_interruptions, if_pos hlen]
      rfl
    · rw [sumInterrupted_calc segs hlen, sumInterrupting_calc segs hlen,
        sumTIc_detectAll, sumTGc_detectAll, sumTIc_foldl_initStep, sumTGc_foldl_initStep]
      rfl
  · intro h2 sp hsp
    have hlen : ¬ segs.length < 2 := by omega
    rw [dkeys_calculate_inter segs hlen]
    apply mem_dkeys_detectAll_mono
    rw [foldl_initStep_keys]
    exact Or.inr hsp

/-- Witness for the sum symmetry and key coverage: two overlapping segments of
speakers "A" and "B". -/
theorem interruption_sum_symmetry_witness :
    sumInterrupted (calculate_per_speaker_interruptions w10segs)
      = sumInterrupting (calculate_per_speaker_interruptions w10segs) ∧
    some "A" ∈ dkeys (calculate_per_speaker_interruptions w10segs) := by
  have h2 : 2 ≤ w10segs.length := by
    simp [w10segs]
  have hsp : some "A" ∈ w10segs.map (fun s => s.speaker) := by
    simp [w10segs]
  exact ⟨(interruption_sum_symmetry w10segs).1,
    (interruption_sum_symmetry w10segs).2 h2 (some "A") hsp⟩

/-! ## Disjoint-append lemmas (claim C9) -/

theorem countP_ltPairs_append {α : Type} (p : α × α → Bool) (x : α) :
    ∀ l : List α,
      (ltPairs (l ++ [x])).countP p
        = (ltPairs l).countP p + (l.map (fun a => (a, x))).countP p := by
  intro l
  induction l with
  | nil => simp [ltPairs]
  | cons a l ih =>
    rw [List.cons_append,
      show ltPairs (a :: (l ++ [x])) = (l ++ [x]).map (fun b => (a, b)) ++ ltPairs (l ++ [x])
        from rfl,
      show ltPairs (a :: l) = l.map (fun b => (a, b)) ++ ltPairs l from rfl,
      List.map_append, List.map_cons]
    simp only [List.countP_append, List.countP_cons, List.countP_nil, List.map_cons,
      List.map_nil, ih]
    omega

theorem specInterrupted_countP (segs : List Segment) (sp : Option String) :
    specInterrupted segs sp
      = (ltPairs segs).countP
          (fun q => decide (q.1.speaker = sp)
            && (decide (q.1.speaker ≠ q.2.speaker) && overlapB q.1 q.2)) := by
  rw [specInterrupted, interPairs, ← List.countP_eq_length_filter, List.countP_filter]

theorem specInterrupting_countP (segs : List Segment) (sp : Option String) :
    specInterrupting segs sp
      = (ltPairs segs).countP
          (fun q => decide (q.2.speaker = sp)
            && (decide (q.1.speaker ≠ q.2.speaker) && overlapB q.1 q.2)) := by
  rw [specInterrupting, interPairs, ← List.countP_eq_length_filter, List.countP_filter]

/-- Claim C9: appending one segment whose speaker label appears nowhere in the
original list and whose interval strictly overlaps no original segment leaves
the `times_interrupted` and `times_interrupting` counts of every original speaker
unchanged. -/
theorem disjoint_segment_monotonicity (segs : List Segment) (newSeg : Segment)
    (sp : Option String)
    (hfresh : ∀ s ∈ segs, s.speaker ≠ newSeg.speaker)
    (hdisj : ∀ s ∈ segs, overlapB s newSeg = false)
    (hsp : sp ∈ segs.map (fun s => s.speaker)) :
    timesInterruptedD (segs ++ [newSeg]) sp = timesInterruptedD segs sp ∧
    timesInterruptingD (segs ++ [newSeg]) sp = timesInterruptingD segs sp := by
  have hspne : newSeg.speaker ≠ sp := by
    rcases List.mem_map.mp hsp with ⟨s, hs, rfl⟩
    exact fun hc => hfresh s hs hc.symm
  constructor
  · rw [timesInterruptedD_eq_spec, timesInterruptedD_eq_spec,
      specInterrupted_countP, specInterrupted_countP, countP_ltPairs_append]
    have hz : (segs.map (fun a => (a, newSeg))).countP
        (fun q => decide (q.1.speaker = sp)
          && (decide (q.1.speaker ≠ q.2.speaker) && overlapB q.1 q.2)) = 0 := by
      rw [List.countP_eq_zero]
      intro q hq
      rcases List.mem_map.mp hq with ⟨s, hs, rfl⟩
      simp [hdisj s hs]
    rw [hz]
    omega
  · rw [timesInterruptingD_eq_spec, timesInterruptingD_eq_spec,
      specInterrupting_countP, specInterrupting_countP, countP_ltPairs_append]
    have hz : (segs.map (fun a => (a, newSeg))).countP
        (fun q => decide (q.2.speaker = sp)
          && (decide (q.1.speaker ≠ q.2.speaker) && overlapB q.1 q.2)) = 0 := by
      rw [List.countP_eq_zero]
      intro q hq
      rcases List.mem_map.mp hq with ⟨s, hs, rfl⟩
      simp [hdisj s hs]
    rw [hz]
    omega

/-- Witness for the disjoint-append monotonicity: appending the later,
disjoint segment of fresh speaker "C" to two overlapping segments of "A" and
"B" keeps the counts of speaker "A" (1 interruption suffered, 0 caused). -/
theorem disjoint_segment_monotonicity_witness :
    (∀ s ∈ w9segs, s.speaker ≠ w9new.speaker) ∧
    (∀ s ∈ w9segs, overlapB s w9new = false) ∧
    some "A" ∈ w9segs.map (fun s => s.speaker) ∧
    timesInterruptedD (w9segs ++ [w9new]) (some "A")
      = timesInterruptedD w9segs (some "A") ∧
    timesInterruptingD (w9segs ++ [w9new]) (some "A")
      = timesInterruptingD w9segs (some "A") := by
  have h1 : ∀ s ∈ w9segs, s.speaker ≠ w9new.speaker := by
    intro s hs
    simp only [w9segs, List.mem_cons, List.not_mem_nil, or_false] at hs
    rcases hs with rfl | rfl <;> simp [w9new]
  have h2 : ∀ s ∈ w9segs, overlapB s w9new = false := by
    intro s hs
    simp only [w9segs, List.mem_cons, List.not_mem_nil, or_false] at hs
    rcases hs with rfl | rfl
    · simp only [overlapB, w9new, Option.getD_some]
      rw [decide_eq_false_iff_not]
      intro hc
      rw [show max (0:ℚ) 10 = 10 from by norm_num,
        show min (5:ℚ) 12 = 5 from by norm_num] at hc
      norm_num at hc
    · simp only [overlapB, w9new, Option.getD_some]
      rw [decide_eq_false_iff_not]
      intro hc
      rw [show max (3:ℚ) 10 = 10 from by norm_num,
        show min (8:ℚ) 12 = 8 from by norm_num] at hc
      norm_num at hc
  have h3 : some "A" ∈ w9segs.map (fun s => s.speaker) := by
    simp [w9segs]
  have H := disjoint_segment_monotonicity w9segs w9new (some "A") h1 h2 h3
  exact ⟨h1, h2, h3, H.1, H.2⟩

/-! ## Interruption-rate lemmas (claim C6) -/

theorem pyRound_ite (c : Prop) [Decidable c] (a b : ℚ) (n : ℕ) :
    pyRound (if c then a else b) n = if c then pyRound a n else pyRound b n := by
  by_cases h : c <;> simp [h]

/-- Claim C6 (amended): for every reported speaker entry, `interruption_rate`
is `(times_interrupted + times_interrupting) / own talk-time minutes` rounded
to 2 decimal places — not the bare quotient — when the talk time of the speaker is
positive, and 0 otherwise; the division is guarded by the positivity test, so
no entry is ever produced by dividing by zero. -/
theorem interruption_rate_formula (segs : List Segment) (sp : Option String)
    (c : InterMetrics)
    (h : dget? (calculate_per_speaker_interruptions segs) sp = some c) :
    c.interruption_rate =
      if 0 < rawTalkTime segs sp / 60 then
        pyRound (((c.times_interrupted + c.times_interrupting : ℕ) : ℚ)
          / (rawTalkTime segs sp / 60)) 2
      else 0 := by
  by_cases hlen : segs.length < 2
  · rw [calculate_per_speaker_interruptions, if_pos hlen] at h
    exact Option.noConfusion h
  · rw [dget?_calculate_inter segs sp hlen] at h
    cases o : dget? (detectAll (segs.foldl initStep ([], [])).1 segs) sp with
    | none =>
      rw [o] at h
      exact Option.noConfusion h
    | some c0 =>
      rw [o] at h
      injection h with h
      subst h
      have htalk : talkVal (segs.foldl initStep ([], [])).2 sp = rawTalkTime segs sp := by
        rw [foldl_initStep_talk]
        simp [talkVal, dget?]
      simp only [mkInterMetrics, htalk]
      rw [pyRound_ite, pyRound_zero]

theorem c6eval :
    dget? (calculate_per_speaker_interruptions c6segs) (some "A")
      = some ⟨1, 0, 667/100⟩ := by
  have hfold : List.foldl initStep ([], []) c6segs
      = ([(some "A", zeroInterCounts), (some "B", zeroInterCounts)],
         [(some "A", (9:ℚ)), (some "B", (9:ℚ))]) := by
    simp [c6segs, List.foldl, initStep, dkeys, dset, dget?, zeroInterCounts]
  have hdetect : detectAll [(some "A", zeroInterCounts), (some "B", zeroInterCounts)] c6segs
      = [(some "A", ⟨1, 0⟩), (some "B", ⟨0, 1⟩)] := by
    simp [c6segs, detectAll, List.foldl, detectPair, bumpInterrupted, bumpInterrupting,
      dset, dget?, zeroInterCounts]
  simp only [calculate_per_speaker_interruptions]
  rw [if_neg (by simp [c6segs]), hfold]
  dsimp only
  rw [hdetect]
  simp [dget?, mkInterMetrics]
  norm_num [pyRound, roundHalfEven]

/-- Claim C6, counterexample: with two fully-overlapping 9-second segments,
speaker "A" has 1 interruption and 0.15 minutes of talk time, and the reported
rate is round(20/3, 2) = 6.67, which differs from the quotient 20/3 the claim
asserts. -/
theorem interruption_rate_counterexample :
    dget? (calculate_per_speaker_interruptions c6segs) (some "A")
      = some ⟨1, 0, 667/100⟩ ∧
    (667/100 : ℚ) ≠ (((1 + 0 : ℕ) : ℚ)) / (rawTalkTime c6segs (some "A") / 60) := by
  refine ⟨c6eval, ?_⟩
  rw [show rawTalkTime c6segs (some "A") = 9 from by simp [rawTalkTime, c6segs]]
  norm_num

/-- Witness for the amended interruption-rate formula at the two-segment
example: the entry of speaker "A" exists and its rate is the rounded quotient. -/
theorem interruption_rate_formula_witness :
    dget? (calculate_per_speaker_interruptions c6segs) (some "A")
      = some ⟨1, 0, 667/100⟩ ∧
    (⟨1, 0, 667/100⟩ : InterMetrics).interruption_rate =
      if 0 < rawTalkTime c6segs (some "A") / 60 then
        pyRound ((((⟨1, 0, 667/100⟩ : InterMetrics).times_interrupted
            + (⟨1, 0, 667/100⟩ : InterMetrics).times_interrupting : ℕ) : ℚ)
          / (rawTalkTime c6segs (some "A") / 60)) 2
      else 0 :=
  ⟨c6eval, interruption_rate_formula c6segs (some "A") ⟨1, 0, 667/100⟩ c6eval⟩

/-! ## Missing-speaker keying (claim C7) -/

theorem mem_dkeys_gapsAux (rest : List Segment) :
    ∀ (gaps : Dict (Option String) (List ℚ)) (prev : Segment) (sp : Option String),
      sp ∈ dkeys (gapsAux gaps prev rest)
        → sp ∈ dkeys gaps ∨ sp ∈ rest.map (fun s => s.speaker) := by
  induction rest with
  | nil => intro gaps prev sp h; exact Or.inl h
  | cons cur rest ih =>
    intro gaps prev sp h
    simp only [gapsAux] at h
    by_cases hc : (latCond prev cur && decide (0 ≤ cur.start.getD 0 - prev.stop.getD 0)) = true
    · rw [if_pos hc] at h
      rcases ih _ cur sp h with h2 | h2
      · rcases (mem_dkeys_dset _ _ _ _).mp h2 with h3 | h3
        · exact Or.inl h3
        · exact Or.inr (by simp [h3])
      · exact Or.inr (by simp [h2])
    · rw [if_neg hc] at h
      rcases ih _ cur sp h with h2 | h2
      · exact Or.inl h2
      · exact Or.inr (by simp [h2])

theorem mem_dkeys_speakerGaps (segs : List Segment) (sp : Option String)
    (h : sp ∈ dkeys (speakerGaps segs)) : sp ∈ segs.map (fun s => s.speaker) := by
  cases segs with
  | nil => simp [speakerGaps, dkeys] at h
  | cons s rest =>
    rw [speakerGaps] at h
    rcases mem_dkeys_gapsAux rest [] s sp h with h2 | h2
    · simp [dkeys] at h2
    · simp [h2]

theorem mem_dkeys_latency (segs : List Segment) (sp : Option String)
    (h : sp ∈ dkeys (calculate_per_speaker_response_latency segs)) :
    sp ∈ segs.map (fun s => s.speaker) := by
  rw [calculate_per_speaker_response_latency] at h
  by_cases hlen : segs.length < 2
  · rw [if_pos hlen] at h
    simp [dkeys] at h
  · rw [if_neg hlen] at h
    rw [dkeys_map_snd _ (fun _ v => mkLatencyMetrics v)] at h
    apply mem_dkeys_speakerGaps segs sp
    simp only [dkeys, List.mem_map] at h ⊢
    rcases h with ⟨p, hp, hfst⟩
    exact ⟨p, List.mem_of_mem_filter hp, hfst⟩

theorem c7eval :
    dget? (calculate_per_speaker_interruptions c7segs) (some "Unknown") = none ∧
    dget? (calculate_per_speaker_interruptions c7segs) none = some ⟨1, 0, 12⟩ := by
  have hfold : List.foldl initStep ([], []) c7segs
      = ([(none, zeroInterCounts), (some "A", zeroInterCounts)],
         [(none, (5:ℚ)), (some "A", (5:ℚ))]) := by
    simp [c7segs, List.foldl, initStep, dkeys, dset, dget?, zeroInterCounts]
    norm_num
  have hdetect : detectAll [(none, zeroInterCounts), (some "A", zeroInterCounts)] c7segs
      = [(none, ⟨1, 0⟩), (some "A", ⟨0, 1⟩)] := by
    simp [c7segs, detectAll, List.foldl, detectPair, bumpInterrupted, bumpInterrupting,
      dset, dget?, zeroInterCounts]
    norm_num
  constructor
  · simp only [calculate_per_speaker_interruptions]
    rw [if_neg (by simp [c7segs]), hfold]
    dsimp only
    rw [hdetect]
    simp [dget?, mkInterMetrics]
  · simp only [calculate_per_speaker_interruptions]
    rw [if_neg (by simp [c7segs]), hfold]
    dsimp only
    rw [hdetect]
    simp [dget?, mkInterMetrics]
    norm_num [pyRound, roundHalfEven]

/-- Claim C7, counterexample: on a list whose first segment has no speaker
field, the interruption calculator has no "Unknown" entry at all — the
missing-speaker segment is keyed under the absent marker (Python None)
instead — while the talk-time aggregation step does key it as "Unknown", so
the calculators do not share the sentinel label the claim asserts. -/
theorem unknown_label_counterexample :
    dget? (calculate_per_speaker_interruptions c7segs) (some "Unknown") = none ∧
    dget? (calculate_per_speaker_interruptions c7segs) none = some ⟨1, 0, 12⟩ ∧
    dget? (calculate_speaker_stats c7segs) "Unknown" ≠ none := by
  refine ⟨c7eval.1, c7eval.2, ?_⟩
  rw [calculate_speaker_stats, dget?_finalizeStats, dget?_rawSpeakerStats]
  rw [if_pos (by simp [unknownLabels, c7segs])]
  simp

/-- Claim C7 (amended): a segment with an absent speaker label never makes any
calculator raise, but only the talk-time aggregation step attributes it to the
sentinel "Unknown"; `calculate_per_speaker_response_latency` and
`calculate_per_speaker_interruptions` key such segments under the absent
marker itself, and neither ever produces a speaker key that is not literally the
speaker field of a segment — so the three calculators do not share the "Unknown"
label for such segments. -/
theorem missing_speaker_keying (segs : List Segment) (seg : Segment)
    (hmem : seg ∈ segs) (hmiss : seg.speaker = none) :
    "Unknown" ∈ dkeys (calculate_speaker_stats segs) ∧
    (2 ≤ segs.length → none ∈ dkeys (calculate_per_speaker_interruptions segs)) ∧
    (∀ sp, sp ∈ dkeys (calculate_per_speaker_interruptions segs)
      → sp ∈ segs.map (fun s => s.speaker)) ∧
    (∀ sp, sp ∈ dkeys (calculate_per_speaker_response_latency segs)
      → sp ∈ segs.map (fun s => s.speaker)) := by
  refine ⟨?_, ?_, ?_, fun sp h => mem_dkeys_latency segs sp h⟩
  · rw [calculate_speaker_stats, dkeys_finalizeStats, rawSpeakerStats,
      mem_dkeys_foldl_statsStep]
    right
    rw [unknownLabels, List.mem_map]
    exact ⟨seg, hmem, by rw [hmiss]; rfl⟩
  · intro h2
    have hlen : ¬ segs.length < 2 := by omega
    rw [dkeys_calculate_inter segs hlen]
    apply mem_dkeys_detectAll_mono
    rw [foldl_initStep_keys]
    right
    rw [List.mem_map]
    exact ⟨seg, hmem, hmiss⟩
  · intro sp h
    by_cases hlen : segs.length < 2
    · rw [calculate_per_speaker_interruptions, if_pos hlen] at h
      simp [dkeys] at h
    · rw [dkeys_calculate_inter segs hlen] at h
      rcases mem_dkeys_detectAll_sub segs _ sp h with h2 | h2
      · rw [foldl_initStep_keys] at h2
        rcases h2 with h3 | h3
        · simp [dkeys] at h3
        · exact h3
      · exact h2

/-- Witness for the amended missing-speaker keying at the concrete input: the
unlabelled overlapping segment is keyed as "Unknown" by the aggregation step
and under the absent marker by the interruption calculator. -/
theorem missing_speaker_keying_witness :
    "Unknown" ∈ dkeys (calculate_speaker_stats c7segs) ∧
    none ∈ dkeys (calculate_per_speaker_interruptions c7segs) := by
  have H := missing_speaker_keying c7segs ⟨some 0, some 5, none, none⟩
    (by simp [c7segs]) rfl
  exact ⟨H.1, H.2.1 (by simp [c7segs])⟩

/-! ## Tip-generation fallback (claim C8) -/

/-- Claim C8: in the per-speaker tip loop, a speaker whose collaborator call
fails gets exactly the two fixed fallback strings with their other statistics
untouched, a speaker whose call succeeds keeps the tips of the collaborator, and
every speaker of the input dict is present in the output — one failure never
aborts the batch. -/
theorem tips_fallback_isolation
    (tipGen : String → MergedStats → Except String (List String))
    (m : Dict String MergedStats) (sp : String) (st : MergedStats)
    (h : dget? m sp = some st) :
    (∀ e, tipGen sp st = Except.error e
      → dget? (generateAllTips tipGen m) sp = some ⟨st, fallbackTips⟩) ∧
    (∀ tips, tipGen sp st = Except.ok tips
      → dget? (generateAllTips tipGen m) sp = some ⟨st, tips⟩) ∧
    dkeys (generateAllTips tipGen m) = dkeys m := by
  have hmap : dget? (generateAllTips tipGen m) sp
      = (dget? m sp).map (fun v => generateTipsStep tipGen sp v) :=
    dget?_map_snd m (fun k v => generateTipsStep tipGen k v) sp
  refine ⟨?_, ?_, dkeys_map_snd m (fun k v => generateTipsStep tipGen k v)⟩
  · intro e he
    rw [hmap, h]
    simp [generateTipsStep, he]
  · intro tips htips
    rw [hmap, h]
    simp [generateTipsStep, htips]

/-- Witness for the tip fallback: the collaborator that throws for "A" only
gives "A" the two fixed fallback tips and leaves "B" with its collaborator
tips, with the statistics of both speakers unchanged. -/
theorem tips_fallback_isolation_witness :
    dget? (generateAllTips w8gen w8m) "A" = some ⟨w8stats, fallbackTips⟩ ∧
    dget? (generateAllTips w8gen w8m) "B"
      = some ⟨w8stats, ["Custom tip for B with 0 words"]⟩ := by
  have hA : dget? w8m "A" = some w8stats := by simp [w8m, dget?]
  have hB : dget? w8m "B" = some w8stats := by simp [w8m, dget?]
  have hgA : w8gen "A" w8stats = Except.error "LLM unavailable" := by
    simp [w8gen]
  have hgB : w8gen "B" w8stats = Except.ok ["Custom tip for B with 0 words"] := rfl
  exact ⟨(tips_fallback_isolation w8gen w8m "A" w8stats hA).1 "LLM unavailable" hgA,
    (tips_fallback_isolation w8gen w8m "B" w8stats hB).2.1 _ hgB⟩

/-! ## Aggregate interruption summary (claim C5, modelled from the spec) -/

/-- Claim C5 (modelled from the spec, see `interruption_summary`): the
`total_count` of the aggregate report is the number of detected interruption
events, its bounded `sample` is the first 10 events (each event carrying time,
duration, interrupting speaker and interrupted speaker, see
`InterruptionEvent`), `rate_per_minute` is 0 for the empty segment list and
`total_count` divided by the `end` timestamp of the last segment in minutes when
that is positive; on at least 2 segments the event count agrees with the
in-source per-speaker detector (sum of reported `times_interrupting`). -/
theorem interruption_summary_spec (segs : List Segment) :
    (interruption_summary segs).total_count = (detect_interruption_events segs).length ∧
    (interruption_summary segs).sample = (detect_interruption_events segs).take 10 ∧
    (segs = [] → (interruption_summary segs).rate_per_minute = 0) ∧
    (∀ lastSeg, segs.getLast? = some lastSeg → 0 < lastSeg.stop.getD 0 →
      (interruption_summary segs).rate_per_minute
        = ((interruption_summary segs).total_count : ℚ) / (lastSeg.stop.getD 0 / 60)) ∧
    (2 ≤ segs.length →
      sumInterrupting (calculate_per_speaker_interruptions segs)
        = (interruption_summary segs).total_count) := by
  refine ⟨rfl, rfl, ?_, ?_, ?_⟩
  · rintro rfl
    simp [interruption_summary]
  · intro lastSeg hlast hpos
    simp only [interruption_summary]
    rw [hlast]
    simp only [Option.elim_some]
    rw [if_pos hpos]
  · intro h2
    have hlen : ¬ segs.length < 2 := by omega
    rw [sumInterrupting_calc segs hlen, sumTGc_detectAll, sumTGc_foldl_initStep]
    simp only [interruption_summary, detect_interruption_events, List.length_map]
    simp [sumTGc]

/-- Witness for the aggregate summary at the scenario of the specification
`[(0,5,"A"), (3,8,"B")]`: the last segment ends at 8 > 0, the rate formula
applies and evaluates to `1 / (8/60) = 7.5`, and the event count agrees with
the per-speaker detector. -/
theorem interruption_summary_spec_witness :
    w5segs.getLast? = some ⟨some 3, some 8, some "B", none⟩ ∧
    (0:ℚ) < 8 ∧
    (interruption_summary w5segs).rate_per_minute
      = ((interruption_summary w5segs).total_count : ℚ) / ((8:ℚ) / 60) ∧
    2 ≤ w5segs.length ∧
    sumInterrupting (calculate_per_speaker_interruptions w5segs)
      = (interruption_summary w5segs).total_count ∧
    (interruption_summary w5segs).rate_per_minute = 15/2 := by
  have hlast : w5segs.getLast? = some ⟨some 3, some 8, some "B", none⟩ := by
    simp [w5segs]
  have hpos : (0:ℚ) < 8 := by norm_num
  have h2 : 2 ≤ w5segs.length := by simp [w5segs]
  have H := interruption_summary_spec w5segs
  have hrate := H.2.2.2.1 ⟨some 3, some 8, some "B", none⟩ hlast hpos
  have hpair : ltPairs w5segs
      = [(⟨some 0, some 5, some "A", none⟩, ⟨some 3, some 8, some "B", none⟩)] := by
    simp [w5segs, ltPairs]
  have hpred : (decide ((⟨some 0, some 5, some "A", none⟩ : Segment).speaker
        ≠ (⟨some 3, some 8, some "B", none⟩ : Segment).speaker)
      && overlapB ⟨some 0, some 5, some "A", none⟩ ⟨some 3, some 8, some "B", none⟩)
      = true := by
    rw [Bool.and_eq_true, decide_eq_true_eq]
    refine ⟨by simp, ?_⟩
    rw [overlapB, decide_eq_true_eq,
      show max ((some (0:ℚ)).getD 0) ((some (3:ℚ)).getD 0) = 3 from by simp,
      show min ((some (5:ℚ)).getD 0) ((some (8:ℚ)).getD 0) = 5 from by
        simp
        norm_num]
    norm_num
  have hevents : detect_interruption_events w5segs
      = [⟨3, 2, some "B", some "A"⟩] := by
    rw [detect_interruption_events, interPairs, hpair, List.filter_cons, if_pos hpred,
      List.filter_nil, List.map_cons, List.map_nil]
    rw [show max ((some (0:ℚ)).getD 0) ((some (3:ℚ)).getD 0) = 3 from by simp,
      show min ((some (5:ℚ)).getD 0) ((some (8:ℚ)).getD 0) = 5 from by
        simp
        norm_num]
    norm_num
  refine ⟨hlast, hpos, hrate, h2, H.2.2.2.2 h2, ?_⟩
  rw [hrate]
  rw [show (interruption_summary w5segs).total_count
      = (detect_interruption_events w5segs).length from H.1, hevents]
  norm_num

end ChipMetrics
